import Mathlib

/-!
# rclqml: event loop (`RosThread`) and message codec

A shallow embedding of `src/Rcl/src/RosThread.cpp` and of the codec interface
declared in `src/Rcl/src/MessageDefinition.h` / `src/Ros/src/MessageField.h`.

## Event loop

The members of `RosThread` are the fields of the structure `RosThread` below.
Every call that leaves the class (a native `rcl_*` function, a Qt logging
function, a handler of an endpoint) is appended to a chronological `trace`.
`qFatal` terminates the process: it is recorded in the trace and sets `aborted`.
For every trigger of the wake signal the history variable `wakes` keeps the
values the members had at that moment, so that the order of a mutation and the
trigger that announces it can be stated.

The native library is not part of the repository.  Its answers are the fields of
`Native`: the return code of a native function is given as a function of the
calls made so far (the trace) and of the arguments of the call, so that any
sequence of answers can be represented.  The three return codes the source
compares against are fields of `Native` as well.

The body of `while(true)` in `RosThread::run` is cut at its lock boundaries into
six phases (`Pc`); `step` executes the phase the loop thread is at, and
`loopBody` executes one whole iteration.  The statements of `run` before the
loop (the start time and the initialisation of the guard condition) are not
modelled.  The handlers `tryHandleMessage` and `tryHandleAnswer` belong to the
endpoint classes; they are recorded as calls and are taken not to touch the
members of `RosThread`, whose mutex the loop holds while they run.  The other
member functions are the operations that other threads call; `exec` runs an
arbitrary interleaving of loop phases and such operations.

## Message codec

`MessageDefinition.h` and `MessageField.h` only declare the codec.  The type
tags are taken from the header; the encodings are modelled from the
specification and marked as such.
-/

namespace Rclqml

/-! ## Native types -/

/-- The return type of the native functions (`rcl_ret_t`, a C `int`). -/
abbrev rcl_ret_t := Int

/-- A native subscription, passed by value to `finalize`; `impl` is its handle. -/
structure rcl_subscription_t where
  impl : Nat
  deriving DecidableEq, Repr

/-- A native client, passed by value to `finalize`; `impl` is its handle. -/
structure rcl_client_t where
  impl : Nat
  deriving DecidableEq, Repr

/-- A `Subscriber*`: the address of a subscriber object.  The native subscription
that the wait set refers to is the member `m_subscription` of that object. -/
abbrev SubscriberPtr := Nat

/-- A `ServiceClient*`: the address of a client object, whose member `m_client`
is the native client that the wait set refers to. -/
abbrev ServiceClientPtr := Nat

/-- The guard conditions a wait set can refer to; the loop owns exactly one. -/
inductive GuardCondition
  | m_wake_up_loop
  deriving DecidableEq, Repr

/-- The local variable `wait_set` of the loop body: the capacities given to
`rcl_wait_set_init` and the entities added since, in the order they were added. -/
structure rcl_wait_set_t where
  size_of_subscriptions : Nat
  size_of_guard_conditions : Nat
  size_of_timers : Nat
  size_of_clients : Nat
  size_of_services : Nat
  subscriptions : List SubscriberPtr
  guard_conditions : List GuardCondition
  clients : List ServiceClientPtr
  deriving DecidableEq, Repr

/-- The native `rcl_get_zero_initialized_wait_set()`. -/
def rcl_get_zero_initialized_wait_set : rcl_wait_set_t :=
  { size_of_subscriptions := 0, size_of_guard_conditions := 0, size_of_timers := 0,
    size_of_clients := 0, size_of_services := 0,
    subscriptions := [], guard_conditions := [], clients := [] }

/-- The messages of the `qFatal` and `qWarning` calls of `RosThread.cpp`. -/
inductive Msg
  | FailedToInitializeWaitSet
  | ErrorWhenAddingGuardCondition
  | ErrorWhenAddingSubscription
  | ErrorWhenAddingClient
  | FailedToWait
  | FailedToFinalizeWaitSet
  | FailedToFinalizeSubscription
  | FailedToFinalizeClient
  | FailedToWakeUpLoop
  deriving DecidableEq, Repr

/-- The calls that leave `RosThread`, as they are recorded in the trace. -/
inductive Call
  | tryHandleMessage (sub : SubscriberPtr)
  | tryHandleAnswer (cl : ServiceClientPtr)
  | rcl_wait_set_init (subscriptions guard_conditions timers clients services : Nat)
  | rcl_wait_set_add_guard_condition
  | rcl_wait_set_add_subscription (sub : SubscriberPtr)
  | rcl_wait_set_add_client (cl : ServiceClientPtr)
  | rcl_wait
  | rcl_reset_error
  | rcl_wait_set_fini
  | rcl_subscription_fini (subscription : rcl_subscription_t)
  | rcl_client_fini (client : rcl_client_t)
  | rcl_trigger_guard_condition
  | qWarning (msg : Msg)
  | qFatal (msg : Msg)
  deriving DecidableEq, Repr

/-- The native finalize calls (`rcl_subscription_fini`, `rcl_client_fini`). -/
def Call.isFini : Call → Bool
  | .rcl_subscription_fini _ => true
  | .rcl_client_fini _ => true
  | _ => false

/-- The calls that build a wait set or wait on it. -/
def Call.isWaitSetUse : Call → Bool
  | .rcl_wait_set_init _ _ _ _ _ => true
  | .rcl_wait_set_add_guard_condition => true
  | .rcl_wait_set_add_subscription _ => true
  | .rcl_wait_set_add_client _ => true
  | .rcl_wait => true
  | _ => false

/-- The native library as the loop sees it.  A return code depends on the calls
made so far and on the arguments; validity of an entity is read from the entity,
which no call of the loop's build phase modifies. -/
structure Native where
  RCL_RET_OK : rcl_ret_t
  RCL_RET_ERROR : rcl_ret_t
  RCL_RET_INVALID_ARGUMENT : rcl_ret_t
  rcl_wait_set_init : List Call → Nat → Nat → Nat → Nat → Nat → rcl_ret_t
  rcl_wait_set_add_guard_condition : List Call → rcl_wait_set_t → rcl_ret_t
  rcl_subscription_is_valid : SubscriberPtr → Bool
  rcl_wait_set_add_subscription : List Call → rcl_wait_set_t → SubscriberPtr → rcl_ret_t
  rcl_client_is_valid : ServiceClientPtr → Bool
  rcl_wait_set_add_client : List Call → rcl_wait_set_t → ServiceClientPtr → rcl_ret_t
  rcl_wait : List Call → rcl_wait_set_t → rcl_ret_t
  rcl_wait_set_fini : List Call → rcl_wait_set_t → rcl_ret_t
  rcl_subscription_fini : List Call → rcl_subscription_t → rcl_ret_t
  rcl_client_fini : List Call → rcl_client_t → rcl_ret_t
  rcl_trigger_guard_condition : List Call → rcl_ret_t

/-! ## The state of `RosThread` -/

/-- The position of the loop thread in the body of `while(true)`. -/
inductive Pc
  | handleSubscribers
  | handleClients
  | buildWaitSet
  | wait
  | releaseWaitSet
  | finalizeQueues
  deriving DecidableEq, Repr

/-- The values of the four members that the operations mutate, as they are at
one moment. -/
structure Members where
  m_subscribers : List SubscriberPtr
  m_clients : List ServiceClientPtr
  m_subscriptionsToFinalize : List rcl_subscription_t
  m_clientsToFinalize : List rcl_client_t
  deriving DecidableEq, Repr

/-- The members of `RosThread` used by the loop, the local `wait_set`, the
position of the loop thread, the trace and the abort flag.  The history
variable `wakes` holds, for every trigger of the wake signal so far, the members
as they were when `rcl_trigger_guard_condition` was called: what a wait that the
trigger interrupts finds. -/
structure RosThread where
  m_subscribers : List SubscriberPtr
  m_clients : List ServiceClientPtr
  m_subscriptionsToFinalize : List rcl_subscription_t
  m_clientsToFinalize : List rcl_client_t
  wait_set : rcl_wait_set_t
  pc : Pc
  trace : List Call
  aborted : Bool
  wakes : List Members
  deriving DecidableEq, Repr

/-- The members at this moment. -/
def RosThread.members (s : RosThread) : Members :=
  { m_subscribers := s.m_subscribers, m_clients := s.m_clients,
    m_subscriptionsToFinalize := s.m_subscriptionsToFinalize,
    m_clientsToFinalize := s.m_clientsToFinalize }

/-- Record a call. -/
def emit (c : Call) (s : RosThread) : RosThread :=
  { s with trace := s.trace ++ [c] }

/-- The call `qFatal(...)`: the message is printed and the process is aborted. -/
def qFatal (m : Msg) (s : RosThread) : RosThread :=
  { s with trace := s.trace ++ [Call.qFatal m], aborted := true }

/-- The Qt function `QList::removeAll(e)`: every occurrence of `e` is removed. -/
def removeAll {α : Type} [DecidableEq α] (l : List α) (e : α) : List α :=
  l.filter (fun x => decide (x ≠ e))

/-! ## Operations called from other threads -/

/-- The member function `RosThread::wakeUpLoop`; the members at the moment of
the trigger are noted in `wakes`. -/
def wakeUpLoop (N : Native) (s : RosThread) : RosThread :=
  let r := N.rcl_trigger_guard_condition s.trace
  let s1 := { emit Call.rcl_trigger_guard_condition s with wakes := s.wakes ++ [s.members] }
  if r ≠ N.RCL_RET_OK then
    emit Call.rcl_reset_error (emit (Call.qWarning Msg.FailedToWakeUpLoop) s1)
  else s1

/-- The member function `RosThread::registerClient`. -/
def registerClient (N : Native) (_client : ServiceClientPtr) (s : RosThread) : RosThread :=
  wakeUpLoop N { s with m_clients := s.m_clients ++ [_client] }

/-- The member function `RosThread::unregisterClient`. -/
def unregisterClient (N : Native) (_client : ServiceClientPtr) (s : RosThread) : RosThread :=
  wakeUpLoop N { s with m_clients := removeAll s.m_clients _client }

/-- The member function `RosThread::registerSubscriber`. -/
def registerSubscriber (N : Native) (_subscriber : SubscriberPtr) (s : RosThread) : RosThread :=
  wakeUpLoop N { s with m_subscribers := s.m_subscribers ++ [_subscriber] }

/-- The member function `RosThread::unregisterSubscriber`. -/
def unregisterSubscriber (N : Native) (_subscriber : SubscriberPtr) (s : RosThread) :
    RosThread :=
  wakeUpLoop N { s with m_subscribers := removeAll s.m_subscribers _subscriber }

/-- The member function `RosThread::finalize(rcl_subscription_t)`. -/
def finalizeSubscription (N : Native) (_subscription : rcl_subscription_t) (s : RosThread) :
    RosThread :=
  wakeUpLoop N
    { s with m_subscriptionsToFinalize := s.m_subscriptionsToFinalize ++ [_subscription] }

/-- The member function `RosThread::finalize(rcl_client_t)`. -/
def finalizeClient (N : Native) (_client : rcl_client_t) (s : RosThread) : RosThread :=
  wakeUpLoop N { s with m_clientsToFinalize := s.m_clientsToFinalize ++ [_client] }

/-! ## The loop body of `RosThread::run` -/

/-- Lines 116-119: `for(Subscriber* sub : m_subscribers) sub->tryHandleMessage();` -/
def handleSubscribers : List SubscriberPtr → RosThread → RosThread
  | [], s => s
  | sub :: rest, s => handleSubscribers rest (emit (Call.tryHandleMessage sub) s)

/-- Lines 124-127: `for(ServiceClient* cl : m_clients) cl->tryHandleAnswer();` -/
def handleClients : List ServiceClientPtr → RosThread → RosThread
  | [], s => s
  | cl :: rest, s => handleClients rest (emit (Call.tryHandleAnswer cl) s)

/-- The loop over `m_subscribers` that adds the valid subscriptions to the wait
set; a native failure is fatal and ends the loop. -/
def addSubscriptions (N : Native) : List SubscriberPtr → RosThread → RosThread
  | [], s => s
  | sub :: rest, s =>
    if N.rcl_subscription_is_valid sub then
      let r := N.rcl_wait_set_add_subscription s.trace s.wait_set sub
      let s1 := emit (Call.rcl_wait_set_add_subscription sub) s
      if r ≠ N.RCL_RET_OK then qFatal Msg.ErrorWhenAddingSubscription s1
      else addSubscriptions N rest
        { s1 with wait_set :=
            { s1.wait_set with subscriptions := s1.wait_set.subscriptions ++ [sub] } }
    else addSubscriptions N rest s

/-- The loop over `m_clients` that adds the valid clients to the wait set. -/
def addClients (N : Native) : List ServiceClientPtr → RosThread → RosThread
  | [], s => s
  | cl :: rest, s =>
    if N.rcl_client_is_valid cl then
      let r := N.rcl_wait_set_add_client s.trace s.wait_set cl
      let s1 := emit (Call.rcl_wait_set_add_client cl) s
      if r ≠ N.RCL_RET_OK then qFatal Msg.ErrorWhenAddingClient s1
      else addClients N rest
        { s1 with wait_set := { s1.wait_set with clients := s1.wait_set.clients ++ [cl] } }
    else addClients N rest s

/-- Sequencing of statements: what follows a `qFatal` is not executed. -/
def RosThread.andThen (s : RosThread) (f : RosThread → RosThread) : RosThread :=
  if s.aborted then s else f s

/-- Lines 130 and 133-136: the wait set is zero-initialised and then initialised
with the capacities. -/
def waitSetInit (N : Native) (s : RosThread) : RosThread :=
  let r := N.rcl_wait_set_init s.trace s.m_subscribers.length 1 0 s.m_clients.length 0
  let s1 := emit (Call.rcl_wait_set_init s.m_subscribers.length 1 0 s.m_clients.length 0)
    { s with wait_set := rcl_get_zero_initialized_wait_set }
  if r ≠ N.RCL_RET_OK then qFatal Msg.FailedToInitializeWaitSet s1
  else
    { s1 with wait_set :=
      { s1.wait_set with
          size_of_subscriptions := s.m_subscribers.length, size_of_guard_conditions := 1,
          size_of_timers := 0, size_of_clients := s.m_clients.length,
          size_of_services := 0 } }

/-- Lines 138-141: the wake signal is added to the wait set. -/
def addGuardCondition (N : Native) (s : RosThread) : RosThread :=
  let r := N.rcl_wait_set_add_guard_condition s.trace s.wait_set
  let s1 := emit Call.rcl_wait_set_add_guard_condition s
  if r ≠ N.RCL_RET_OK then qFatal Msg.ErrorWhenAddingGuardCondition s1
  else
    { s1 with wait_set :=
      { s1.wait_set with
          guard_conditions := s1.wait_set.guard_conditions ++ [GuardCondition.m_wake_up_loop] } }

/-- Lines 130-164: the wait set is built under `m_mutex`; the loop thread then
goes on to the wait. -/
def buildWaitSet (N : Native) (s : RosThread) : RosThread :=
  ((((waitSetInit N s).andThen (addGuardCondition N)).andThen
    (fun s1 => addSubscriptions N s1.m_subscribers s1)).andThen
    (fun s2 => addClients N s2.m_clients s2)).andThen
    (fun s3 => { s3 with pc := Pc.wait })

/-- Lines 165-170: the blocking wait and the test of its result. -/
def waitPhase (N : Native) (s : RosThread) : RosThread :=
  let ret_wait := N.rcl_wait s.trace s.wait_set
  let s1 := emit Call.rcl_wait s
  if ret_wait = N.RCL_RET_ERROR ∨ ret_wait = N.RCL_RET_INVALID_ARGUMENT then
    qFatal Msg.FailedToWait s1
  else { emit Call.rcl_reset_error s1 with pc := Pc.releaseWaitSet }

/-- Lines 171-174: the wait set is released. -/
def releaseWaitSet (N : Native) (s : RosThread) : RosThread :=
  let r := N.rcl_wait_set_fini s.trace s.wait_set
  let s1 := emit Call.rcl_wait_set_fini s
  if r ≠ N.RCL_RET_OK then qFatal Msg.FailedToFinalizeWaitSet s1
  else { s1 with pc := Pc.finalizeQueues }

/-- Lines 176-183: `for(rcl_subscription_t subscription : m_subscriptionsToFinalize)`;
a failing `rcl_subscription_fini` is answered by a warning and a reset of the
error state, and the loop goes on. -/
def finalizeSubscriptions (N : Native) : List rcl_subscription_t → RosThread → RosThread
  | [], s => s
  | subscription :: rest, s =>
    let r := N.rcl_subscription_fini s.trace subscription
    let s1 := emit (Call.rcl_subscription_fini subscription) s
    if r ≠ N.RCL_RET_OK then
      finalizeSubscriptions N rest
        (emit Call.rcl_reset_error (emit (Call.qWarning Msg.FailedToFinalizeSubscription) s1))
    else finalizeSubscriptions N rest s1

/-- Lines 184-191: `for(rcl_client_t client : m_clientsToFinalize)`; a failing
`rcl_client_fini` is answered by a warning and a reset of the error state, and
the loop goes on. -/
def finalizeClients (N : Native) : List rcl_client_t → RosThread → RosThread
  | [], s => s
  | client :: rest, s =>
    let r := N.rcl_client_fini s.trace client
    let s1 := emit (Call.rcl_client_fini client) s
    if r ≠ N.RCL_RET_OK then
      finalizeClients N rest
        (emit Call.rcl_reset_error (emit (Call.qWarning Msg.FailedToFinalizeClient) s1))
    else finalizeClients N rest s1

/-- Lines 175-193: under `m_mutex_finalize` both queues are walked; the body of
the loop ends here and control returns to its head. -/
def finalizeQueues (N : Native) (s : RosThread) : RosThread :=
  let s1 := finalizeSubscriptions N s.m_subscriptionsToFinalize s
  let s2 := finalizeClients N s1.m_clientsToFinalize s1
  { s2 with pc := Pc.handleSubscribers }

/-- One phase of the loop thread.  An aborted process does nothing. -/
def step (N : Native) (s : RosThread) : RosThread :=
  if s.aborted then s
  else
    match s.pc with
    | Pc.handleSubscribers =>
      { handleSubscribers s.m_subscribers s with pc := Pc.handleClients }
    | Pc.handleClients => { handleClients s.m_clients s with pc := Pc.buildWaitSet }
    | Pc.buildWaitSet => buildWaitSet N s
    | Pc.wait => waitPhase N s
    | Pc.releaseWaitSet => releaseWaitSet N s
    | Pc.finalizeQueues => finalizeQueues N s

/-- One iteration of `while(true)`: the six phases in sequence. -/
def loopBody (N : Native) (s : RosThread) : RosThread :=
  step N (step N (step N (step N (step N (step N s)))))

/-- What a thread can do next: the loop thread runs its next phase, or another
thread calls one of the public operations. -/
inductive Op
  | loopStep
  | registerClient (_client : ServiceClientPtr)
  | unregisterClient (_client : ServiceClientPtr)
  | registerSubscriber (_subscriber : SubscriberPtr)
  | unregisterSubscriber (_subscriber : SubscriberPtr)
  | finalizeSubscription (_subscription : rcl_subscription_t)
  | finalizeClient (_client : rcl_client_t)
  deriving DecidableEq, Repr

/-- Execute one operation against the native answers `N`. -/
def exec1 (N : Native) (op : Op) (s : RosThread) : RosThread :=
  if s.aborted then s
  else
    match op with
    | Op.loopStep => step N s
    | Op.registerClient c => registerClient N c s
    | Op.unregisterClient c => unregisterClient N c s
    | Op.registerSubscriber e => registerSubscriber N e s
    | Op.unregisterSubscriber e => unregisterSubscriber N e s
    | Op.finalizeSubscription e => finalizeSubscription N e s
    | Op.finalizeClient e => finalizeClient N e s

/-- Execute a schedule: an interleaving of loop phases and operations, each with
the native answers in force when it runs. -/
def exec : List (Native × Op) → RosThread → RosThread
  | [], s => s
  | (N, op) :: rest, s => exec rest (exec1 N op s)

/-- The state in which the loop thread enters `while(true)`. -/
def initial : RosThread :=
  { m_subscribers := [], m_clients := [], m_subscriptionsToFinalize := [],
    m_clientsToFinalize := [], wait_set := rcl_get_zero_initialized_wait_set,
    pc := Pc.handleSubscribers, trace := [], aborted := false, wakes := [] }

/-- Native answers in which every call succeeds and every entity is valid. -/
def nativeOk : Native :=
  { RCL_RET_OK := 0, RCL_RET_ERROR := 1, RCL_RET_INVALID_ARGUMENT := 11,
    rcl_wait_set_init := fun _ _ _ _ _ _ => 0,
    rcl_wait_set_add_guard_condition := fun _ _ => 0,
    rcl_subscription_is_valid := fun _ => true,
    rcl_wait_set_add_subscription := fun _ _ _ => 0,
    rcl_client_is_valid := fun _ => true,
    rcl_wait_set_add_client := fun _ _ _ => 0,
    rcl_wait := fun _ _ => 0,
    rcl_wait_set_fini := fun _ _ => 0,
    rcl_subscription_fini := fun _ _ => 0,
    rcl_client_fini := fun _ _ => 0,
    rcl_trigger_guard_condition := fun _ => 0 }

/-- Native answers in which the trigger of the wake signal and the finalize
calls fail, the wait times out (code 2), and the entities at even addresses are
the valid ones. -/
def nativeFlaky : Native :=
  { nativeOk with
    rcl_subscription_is_valid := fun p => p % 2 == 0,
    rcl_client_is_valid := fun p => p % 2 == 0,
    rcl_wait := fun _ _ => 2,
    rcl_subscription_fini := fun _ _ => 1,
    rcl_client_fini := fun _ _ => 1,
    rcl_trigger_guard_condition := fun _ => 1 }

/-- Native answers in which the wait times out (code 2) and the release of the
wait set fails (code 1); every other call succeeds. -/
def nativeReleaseFails : Native :=
  { nativeOk with
    rcl_wait := fun _ _ => 2,
    rcl_wait_set_fini := fun _ _ => 1 }

/-- Native answers in which an add fails (code 902) exactly when the wait set
has no free slot of the kind that is added. -/
def nativeFull : Native :=
  { nativeOk with
    rcl_wait_set_add_guard_condition := fun _ ws =>
      if ws.guard_conditions.length < ws.size_of_guard_conditions then 0 else 902,
    rcl_wait_set_add_subscription := fun _ ws _ =>
      if ws.subscriptions.length < ws.size_of_subscriptions then 0 else 902,
    rcl_wait_set_add_client := fun _ ws _ =>
      if ws.clients.length < ws.size_of_clients then 0 else 902 }

/-! ## Notions used in the statements and proofs -/

/-- The calls `wakeUpLoop` issues when the trace so far is `tr`. -/
def wakeCalls (N : Native) (tr : List Call) : List Call :=
  Call.rcl_trigger_guard_condition ::
    (if N.rcl_trigger_guard_condition tr ≠ N.RCL_RET_OK then
      [Call.qWarning Msg.FailedToWakeUpLoop, Call.rcl_reset_error] else [])

/-- The state `out` is reached from `s` by bringing the members to those of `mid`
and then calling `wakeUpLoop` once: a failing trigger adds a warning and an
error-state reset, nothing aborts, the members of `mid` are those of `out`, and
the one trigger that is added to the history `wakes` was issued when the members
were already those of `mid`, that is, after the mutation. -/
def MutatesThenWakes (N : Native) (s mid out : RosThread) : Prop :=
  mid.trace = s.trace ∧ mid.aborted = s.aborted ∧ out = wakeUpLoop N mid ∧
  (∃ es, out.trace = s.trace ++ es ∧ es.count Call.rcl_trigger_guard_condition = 1 ∧
    (∀ m, Call.qFatal m ∉ es) ∧
    (N.rcl_trigger_guard_condition s.trace = N.RCL_RET_OK →
      es = [Call.rcl_trigger_guard_condition]) ∧
    (N.rcl_trigger_guard_condition s.trace ≠ N.RCL_RET_OK →
      es = [Call.rcl_trigger_guard_condition, Call.qWarning Msg.FailedToWakeUpLoop,
        Call.rcl_reset_error])) ∧
  out.aborted = s.aborted ∧
  out.m_subscribers = mid.m_subscribers ∧ out.m_clients = mid.m_clients ∧
  out.m_subscriptionsToFinalize = mid.m_subscriptionsToFinalize ∧
  out.m_clientsToFinalize = mid.m_clientsToFinalize ∧
  mid.wakes = s.wakes ∧ out.wakes = s.wakes ++ [mid.members]

def Call.isAddSubscription : Call → Bool
  | .rcl_wait_set_add_subscription _ => true
  | _ => false

def Call.isAddClient : Call → Bool
  | .rcl_wait_set_add_client _ => true
  | _ => false

/-- What the calls of a build phase after `rcl_wait_set_init` can be: an add of
the wake signal, an add of a valid subscriber or client, or a `qFatal`. -/
def Call.isBuildCall (N : Native) (x : Call) : Prop :=
  x = Call.rcl_wait_set_add_guard_condition ∨
  (∃ sub, x = Call.rcl_wait_set_add_subscription sub ∧ N.rcl_subscription_is_valid sub = true) ∨
  (∃ cl, x = Call.rcl_wait_set_add_client cl ∧ N.rcl_client_is_valid cl = true) ∨
  (∃ m, x = Call.qFatal m)

/-- The calls `es` are build calls, with at most `g` adds of the wake signal,
`n` adds of a subscription and `m` adds of a client. -/
def BuildCalls (N : Native) (es : List Call) (g n m : Nat) : Prop :=
  (∀ x ∈ es, Call.isBuildCall N x) ∧
  es.count Call.rcl_wait_set_add_guard_condition ≤ g ∧
  es.countP Call.isAddSubscription ≤ n ∧
  es.countP Call.isAddClient ≤ m

/-- The native add functions fail only on a wait set that has no free slot of
the kind that is added. -/
def Native.AddFailsOnlyWhenFull (N : Native) : Prop :=
  (∀ tr ws, ws.guard_conditions.length < ws.size_of_guard_conditions →
    N.rcl_wait_set_add_guard_condition tr ws = N.RCL_RET_OK) ∧
  (∀ tr ws sub, ws.subscriptions.length < ws.size_of_subscriptions →
    N.rcl_wait_set_add_subscription tr ws sub = N.RCL_RET_OK) ∧
  (∀ tr ws cl, ws.clients.length < ws.size_of_clients →
    N.rcl_wait_set_add_client tr ws cl = N.RCL_RET_OK)

/-- From `s` to `t` the calls `es` were issued, the members were not touched
and an abort was not undone. -/
def Issues (s t : RosThread) (es : List Call) : Prop :=
  t.trace = s.trace ++ es ∧ t.m_subscribers = s.m_subscribers ∧ t.m_clients = s.m_clients ∧
  t.m_subscriptionsToFinalize = s.m_subscriptionsToFinalize ∧
  t.m_clientsToFinalize = s.m_clientsToFinalize ∧
  (s.aborted = true → t.aborted = true)

/-- The calls made for one queued entity: the finalize call, followed by a
warning and a reset of the error state when it failed. -/
def FiniBlock (fini : Call) (warn : Msg) (b : List Call) : Prop :=
  b = [fini] ∨ b = [fini, Call.qWarning warn, Call.rcl_reset_error]

/-- The calls made for one queued entity whose native finalize call returns
`ret`: the finalize call alone when `ret` is `ok`, and the finalize call followed
by a warning and a reset of the error state otherwise. -/
def finiBlock (ret ok : rcl_ret_t) (fini : Call) (warn : Msg) : List Call :=
  if ret = ok then [fini] else [fini, Call.qWarning warn, Call.rcl_reset_error]

/-- The blocks `blocks` are the calls made for the queue `q` when it is walked
from the trace `tr`: there is one block per queued entity, and the block of the
entity at position `i` is the one that the answer of its native finalize call
selects, the answer being given at the trace reached after the blocks before
it. -/
def AnsweredBlocks {α : Type} (answer : List Call → α → rcl_ret_t) (ok : rcl_ret_t)
    (fini : α → Call) (warn : Msg) (tr : List Call) (q : List α)
    (blocks : List (List Call)) : Prop :=
  blocks.length = q.length ∧
  ∀ i e, q[i]? = some e →
    blocks[i]? =
      some (finiBlock (answer (tr ++ (blocks.take i).flatten) e) ok (fini e) warn)

/-- Where the trace stands with respect to the wait set: the wait has returned
(`waited`), the wait has returned and the wait set has been released since
(`released`), or neither (`other`). -/
inductive WaitSetStatus
  | other
  | waited
  | released
  deriving DecidableEq, Repr

/-- The status after one more call. -/
def WaitSetStatus.next (st : WaitSetStatus) (c : Call) : WaitSetStatus :=
  match c with
  | Call.rcl_wait => WaitSetStatus.waited
  | Call.rcl_wait_set_init _ _ _ _ _ => WaitSetStatus.other
  | Call.rcl_wait_set_add_guard_condition => WaitSetStatus.other
  | Call.rcl_wait_set_add_subscription _ => WaitSetStatus.other
  | Call.rcl_wait_set_add_client _ => WaitSetStatus.other
  | Call.rcl_wait_set_fini =>
    match st with
    | WaitSetStatus.other => WaitSetStatus.other
    | _ => WaitSetStatus.released
  | _ => st

/-- The status at the end of a trace. -/
def waitSetStatus (tr : List Call) : WaitSetStatus :=
  tr.foldl WaitSetStatus.next WaitSetStatus.other

/-- Every finalize call of the calls `es`, issued from status `st`, is issued
in status `released`. -/
def finiWhenReleased : WaitSetStatus → List Call → Prop
  | _, [] => True
  | st, x :: xs => (x.isFini = true → st = WaitSetStatus.released) ∧
      finiWhenReleased (st.next x) xs

/-- The invariant of the event loop: every finalize call of the trace was issued
after a wait had returned and its wait set had been released, and the loop
thread is about to release only after a wait and about to finalize only after
a release. -/
def Inv (s : RosThread) : Prop :=
  finiWhenReleased WaitSetStatus.other s.trace ∧
  (s.aborted = false →
    (s.pc = Pc.releaseWaitSet → waitSetStatus s.trace = WaitSetStatus.waited) ∧
    (s.pc = Pc.finalizeQueues → waitSetStatus s.trace = WaitSetStatus.released))

/-! ## Message codec

The header `MessageField.h` declares the type tags and the three pure virtual functions
`parse`, `generate` and `serializedLength`; `MessageDefinition.h` declares
`serializeMessage` and `deserializeMessage`.  Their bodies are not among the
sources, so they are modelled from the specification. -/

/-- The enumeration `MessageField::Type`. -/
inductive FieldType
  | Bool | Int8 | UInt8 | Int16 | UInt16 | Int32 | UInt32 | Int64 | UInt64
  | Float32 | Float64 | String | Time | Duration | Message
  deriving DecidableEq, Repr

/-- A field descriptor (`MessageField`): a name and a type tag; a field of type
`Message` refers to the fields of the definition of its element type. -/
inductive MessageField
  | scalar (m_name : String) (m_type : FieldType)
  | message (m_name : String) (m_fields : List MessageField)

/-- The accessor `MessageField::name`. -/
def MessageField.name : MessageField → String
  | .scalar m_name _ => m_name
  | .message m_name _ => m_name

/-- The accessor `MessageField::type`. -/
def MessageField.type : MessageField → FieldType
  | .scalar _ m_type => m_type
  | .message _ _ => FieldType.Message

/-- The members of `MessageDefinition` that the codec uses. -/
structure MessageDefinition where
  m_type_name : String
  m_valid : Bool
  m_fields : List MessageField

/-- A value of the generic representation (`QVariant`).  A floating-point value
is represented by its IEEE bit pattern, a string by its bytes, and a nested
message by its entries (`QVariantMap`). -/
inductive QVariant
  | bool (b : Bool)
  | int (i : Int)
  | uint (n : Nat)
  | float (bits : Nat)
  | string (bytes : List Nat)
  | time (sec nsec : Nat)
  | duration (sec nsec : Int)
  | map (entries : List (String × QVariant))

/-- The type `QVariantMap`: the entries of a key-to-value mapping. -/
abbrev QVariantMap := List (String × QVariant)

/-- The type `MessageData`: the bytes of a wire buffer. -/
abbrev MessageData := List Nat

/-- Modelled from the spec: the canonical wire representation of an unsigned
integer of `w` bytes (body of the field codecs is missing): little-endian. -/
def encodeLE : Nat → Nat → List Nat
  | 0, _ => []
  | w + 1, n => n % 256 :: encodeLE w (n / 256)

/-- Modelled from the spec: the unsigned integer that little-endian bytes stand for
(body of the field codecs is missing). -/
def decodeLE : List Nat → Nat
  | [] => 0
  | b :: bs => b + 256 * decodeLE bs

/-- Modelled from the spec: the cursor of the missing stream classes; reading `n`
bytes fails when fewer remain. -/
def readBytes (n : Nat) (bytes : List Nat) : Option (List Nat × List Nat) :=
  if bytes.length < n then none else some (bytes.take n, bytes.drop n)

/-- Modelled from the spec: two's complement of a signed integer on `w` bytes
(body of the field codecs is missing). -/
def fromSigned (w : Nat) (i : Int) : Nat :=
  (i % (2 : Int) ^ (8 * w)).toNat

/-- Modelled from the spec: the signed integer of a two's complement on `w`
bytes (body of the field codecs is missing). -/
def toSigned (w : Nat) (n : Nat) : Int :=
  if n < 2 ^ (8 * w - 1) then (n : Int) else (n : Int) - (2 : Int) ^ (8 * w)

/-- The shapes of encoding that the type tags select. -/
inductive Shape
  | boolean
  | signed (w : Nat)
  | unsigned (w : Nat)
  | floating (w : Nat)
  | string
  | time
  | duration
  | message
  deriving DecidableEq, Repr

/-- Modelled from the spec: the encoded shape of each type tag (boolean,
signed/unsigned integers of 8/16/32/64 bits, float32/64, string, time,
duration, nested message); the field codec subclasses are missing. -/
def FieldType.shape : FieldType → Shape
  | .Bool => Shape.boolean
  | .Int8 => Shape.signed 1
  | .UInt8 => Shape.unsigned 1
  | .Int16 => Shape.signed 2
  | .UInt16 => Shape.unsigned 2
  | .Int32 => Shape.signed 4
  | .UInt32 => Shape.unsigned 4
  | .Int64 => Shape.signed 8
  | .UInt64 => Shape.unsigned 8
  | .Float32 => Shape.floating 4
  | .Float64 => Shape.floating 8
  | .String => Shape.string
  | .Time => Shape.time
  | .Duration => Shape.duration
  | .Message => Shape.message

/-- Modelled from the spec: `encode` of a field that is not a nested message
(`MessageField::generate`, whose overrides are missing): the value in the
canonical representation of the type, a string with a 32-bit length in front. -/
def generateScalar : Shape → QVariant → Option (List Nat)
  | Shape.boolean, QVariant.bool b => some [if b then 1 else 0]
  | Shape.signed w, QVariant.int i => some (encodeLE w (fromSigned w i))
  | Shape.unsigned w, QVariant.uint n => some (encodeLE w n)
  | Shape.floating w, QVariant.float bits => some (encodeLE w bits)
  | Shape.string, QVariant.string s => some (encodeLE 4 s.length ++ s)
  | Shape.time, QVariant.time sec nsec => some (encodeLE 4 sec ++ encodeLE 4 nsec)
  | Shape.duration, QVariant.duration sec nsec =>
    some (encodeLE 4 (fromSigned 4 sec) ++ encodeLE 4 (fromSigned 4 nsec))
  | _, _ => none

/-- Modelled from the spec: `decode` of a field that is not a nested message
(`MessageField::parse`, whose overrides are missing): reads exactly the encoded
width and returns the value and the advanced cursor. -/
def parseScalar : Shape → List Nat → Option (QVariant × List Nat)
  | Shape.boolean, bytes =>
    match readBytes 1 bytes with
    | some (b, rest) => some (QVariant.bool (decide (decodeLE b ≠ 0)), rest)
    | none => none
  | Shape.signed w, bytes =>
    match readBytes w bytes with
    | some (b, rest) => some (QVariant.int (toSigned w (decodeLE b)), rest)
    | none => none
  | Shape.unsigned w, bytes =>
    match readBytes w bytes with
    | some (b, rest) => some (QVariant.uint (decodeLE b), rest)
    | none => none
  | Shape.floating w, bytes =>
    match readBytes w bytes with
    | some (b, rest) => some (QVariant.float (decodeLE b), rest)
    | none => none
  | Shape.string, bytes =>
    match readBytes 4 bytes with
    | some (len, rest) =>
      match readBytes (decodeLE len) rest with
      | some (s, rest2) => some (QVariant.string s, rest2)
      | none => none
    | none => none
  | Shape.time, bytes =>
    match readBytes 4 bytes with
    | some (sec, rest) =>
      match readBytes 4 rest with
      | some (nsec, rest2) => some (QVariant.time (decodeLE sec) (decodeLE nsec), rest2)
      | none => none
    | none => none
  | Shape.duration, bytes =>
    match readBytes 4 bytes with
    | some (sec, rest) =>
      match readBytes 4 rest with
      | some (nsec, rest2) =>
        some (QVariant.duration (toSigned 4 (decodeLE sec)) (toSigned 4 (decodeLE nsec)), rest2)
      | none => none
    | none => none
  | Shape.message, _ => none

mutual
/-- Modelled from the spec: `MessageField::generate`, whose overrides are
missing; a nested-message field delegates to the fields of its definition. -/
def MessageField.generate : MessageField → QVariant → Option (List Nat)
  | MessageField.scalar _ m_type, v => generateScalar m_type.shape v
  | MessageField.message _ m_fields, QVariant.map entries => generateFields m_fields entries
  | MessageField.message _ _, _ => none
/-- Modelled from the spec: the body of `MessageDefinition::serializeMessage`,
which is missing: each field, in declared order, is looked up by name in the
mapping and encoded; an absent field is an error. -/
def generateFields : List MessageField → QVariantMap → Option (List Nat)
  | [], _ => some []
  | f :: fs, _hash =>
    match _hash.lookup f.name with
    | none => none
    | some v =>
      match f.generate v, generateFields fs _hash with
      | some a, some b => some (a ++ b)
      | _, _ => none
end

mutual
/-- Modelled from the spec: `MessageField::parse`, whose overrides are missing;
a nested-message field decodes to a nested mapping. -/
def MessageField.parse : MessageField → List Nat → Option (QVariant × List Nat)
  | MessageField.scalar _ m_type, bytes => parseScalar m_type.shape bytes
  | MessageField.message _ m_fields, bytes =>
    match parseFields m_fields bytes with
    | some (entries, rest) => some (QVariant.map entries, rest)
    | none => none
/-- Modelled from the spec: the body of `MessageDefinition::deserializeMessage`,
which is missing: each field is decoded in declared order into a mapping from
field name to value. -/
def parseFields : List MessageField → List Nat → Option (QVariantMap × List Nat)
  | [], bytes => some ([], bytes)
  | f :: fs, bytes =>
    match f.parse bytes with
    | none => none
    | some (v, rest) =>
      match parseFields fs rest with
      | none => none
      | some (entries, rest2) => some ((f.name, v) :: entries, rest2)
end

/-- Modelled from the spec: `MessageDefinition::serializeMessage` (body missing);
an invalid definition refuses to run. -/
def MessageDefinition.serializeMessage (d : MessageDefinition) (_hash : QVariantMap) :
    Option MessageData :=
  if d.m_valid then generateFields d.m_fields _hash else none

/-- Modelled from the spec: `MessageDefinition::deserializeMessage` (body
missing); an invalid definition refuses to run and a buffer whose length does
not match is an error. -/
def MessageDefinition.deserializeMessage (d : MessageDefinition) (_buffer : MessageData) :
    Option QVariantMap :=
  if d.m_valid then
    match parseFields d.m_fields _buffer with
    | some (entries, []) => some entries
    | _ => none
  else none

/-- A value fits a shape: an integer is in the range of its width, a bit pattern
has the width of its float, a string is shorter than `2 ^ 32` bytes. -/
def scalarOk : Shape → QVariant → Bool
  | Shape.boolean, QVariant.bool _ => true
  | Shape.signed w, QVariant.int i =>
    decide (0 < w) && decide (-(2 : Int) ^ (8 * w - 1) ≤ i) && decide (i < (2 : Int) ^ (8 * w - 1))
  | Shape.unsigned w, QVariant.uint n => decide (n < 2 ^ (8 * w))
  | Shape.floating w, QVariant.float bits => decide (bits < 2 ^ (8 * w))
  | Shape.string, QVariant.string s => decide (s.length < 2 ^ 32)
  | Shape.time, QVariant.time sec nsec => decide (sec < 2 ^ 32) && decide (nsec < 2 ^ 32)
  | Shape.duration, QVariant.duration sec nsec =>
    decide (-(2 : Int) ^ 31 ≤ sec) && decide (sec < (2 : Int) ^ 31) &&
    decide (-(2 : Int) ^ 31 ≤ nsec) && decide (nsec < (2 : Int) ^ 31)
  | _, _ => false

mutual
/-- A value conforms to a field. -/
def MessageField.accepts : MessageField → QVariant → Bool
  | MessageField.scalar _ m_type, v => scalarOk m_type.shape v
  | MessageField.message _ m_fields, QVariant.map entries =>
    conformsSeq m_fields entries && decide (entries.map Prod.fst).Nodup
  | MessageField.message _ _, _ => false
/-- The entries are those of the field sequence, one per field and in order,
each value conforming to its field. -/
def conformsSeq : List MessageField → QVariantMap → Bool
  | [], [] => true
  | f :: fs, (k, v) :: vs => decide (k = f.name) && f.accepts v && conformsSeq fs vs
  | _, _ => false
end

/-- A mapping conforms to the field sequence of a definition: its keys are the
field names, each once, and its values conform to the fields (nested mappings
likewise). -/
def MessageDefinition.conforms (d : MessageDefinition) (values : QVariantMap) : Bool :=
  conformsSeq d.m_fields values && decide (values.map Prod.fst).Nodup

/-- The example of the specification, with an empty string and a signed field
added: `fieldA: uint32, fieldB: string, fieldC: { x: float64 }, fieldD: string,
fieldE: int16`. -/
def exampleDefinition : MessageDefinition :=
  { m_type_name := "pkg/Example", m_valid := true,
    m_fields := [MessageField.scalar "fieldA" FieldType.UInt32,
      MessageField.scalar "fieldB" FieldType.String,
      MessageField.message "fieldC" [MessageField.scalar "x" FieldType.Float64],
      MessageField.scalar "fieldD" FieldType.String,
      MessageField.scalar "fieldE" FieldType.Int16] }

/-- Values for `exampleDefinition`: 7, "hi", `x` = 3.5 (as its bit pattern), the
empty string and -2. -/
def exampleValues : QVariantMap :=
  [("fieldA", QVariant.uint 7), ("fieldB", QVariant.string [104, 105]),
    ("fieldC", QVariant.map [("x", QVariant.float 4615063718147915776)]),
    ("fieldD", QVariant.string []),
    ("fieldE", QVariant.int (-2))]

/-! ## Theorems about the event loop -/

theorem wakeUpLoop_eq (N : Native) (s : RosThread) :
    wakeUpLoop N s =
      { s with trace := s.trace ++ wakeCalls N s.trace,
               wakes := s.wakes ++ [s.members] } := by
  unfold wakeUpLoop wakeCalls emit
  by_cases h : N.rcl_trigger_guard_condition s.trace = N.RCL_RET_OK
  · simp [h]
  · simp [h]

theorem wakeCalls_count (N : Native) (tr : List Call) :
    (wakeCalls N tr).count Call.rcl_trigger_guard_condition = 1 := by
  unfold wakeCalls
  by_cases h : N.rcl_trigger_guard_condition tr = N.RCL_RET_OK
  · simp [h]
  · simp [h]

theorem wakeCalls_not_fini (N : Native) (tr : List Call) :
    ∀ x ∈ wakeCalls N tr, x.isFini = false ∧ x.isWaitSetUse = false := by
  unfold wakeCalls
  by_cases h : N.rcl_trigger_guard_condition tr = N.RCL_RET_OK
  · simp [h, Call.isFini, Call.isWaitSetUse]
  · simp [h, Call.isFini, Call.isWaitSetUse]

theorem mutatesThenWakes_intro (N : Native) (s mid : RosThread)
    (h1 : mid.trace = s.trace) (h2 : mid.aborted = s.aborted) (h3 : mid.wakes = s.wakes) :
    MutatesThenWakes N s mid (wakeUpLoop N mid) := by
  refine ⟨h1, h2, rfl, ?_, ?_, ?_, ?_, ?_, ?_, h3, ?_⟩
  · refine ⟨wakeCalls N s.trace, ?_, wakeCalls_count N s.trace, ?_, ?_, ?_⟩
    · rw [wakeUpLoop_eq, h1]
    · intro m hm
      revert hm
      unfold wakeCalls
      by_cases h : N.rcl_trigger_guard_condition s.trace = N.RCL_RET_OK <;> simp [h]
    · intro h; simp [wakeCalls, h]
    · intro h; simp [wakeCalls, h]
  all_goals simp [wakeUpLoop_eq, h2, h3]

theorem removeAll_not_mem {α : Type} [DecidableEq α] (l : List α) (e : α) :
    e ∉ removeAll l e := by
  simp [removeAll]

theorem removeAll_sublist {α : Type} [DecidableEq α] (l : List α) (e : α) :
    List.Sublist (removeAll l e) l := by
  simp [removeAll]

theorem removeAll_count {α : Type} [DecidableEq α] (l : List α) (e x : α) (h : x ≠ e) :
    (removeAll l e).count x = l.count x := by
  unfold removeAll
  rw [List.count_filter]
  simpa using h

theorem removeAll_append_self {α : Type} [DecidableEq α] (l : List α) (e : α) (h : e ∉ l) :
    removeAll (l ++ [e]) e = l := by
  unfold removeAll
  rw [List.filter_append]
  simp
  intro a ha hae
  exact h (hae ▸ ha)

/-- C3: `finalize(e)` appends `e` to the pending queue of its kind, leaves the
other queue and both active sets as they are, and the only calls it issues are
the trigger of the wake signal and, when that fails, a warning and a reset of
the error state: no native finalize call. -/
theorem finalize_only_enqueues (N : Native) (s : RosThread)
    (_subscription : rcl_subscription_t) (_client : rcl_client_t) :
    ((finalizeSubscription N _subscription s).m_subscriptionsToFinalize
        = s.m_subscriptionsToFinalize ++ [_subscription] ∧
      (finalizeSubscription N _subscription s).m_clientsToFinalize = s.m_clientsToFinalize ∧
      (finalizeSubscription N _subscription s).m_subscribers = s.m_subscribers ∧
      (finalizeSubscription N _subscription s).m_clients = s.m_clients ∧
      ∃ es, (finalizeSubscription N _subscription s).trace = s.trace ++ es ∧
        ∀ x ∈ es, x.isFini = false) ∧
    ((finalizeClient N _client s).m_clientsToFinalize = s.m_clientsToFinalize ++ [_client] ∧
      (finalizeClient N _client s).m_subscriptionsToFinalize = s.m_subscriptionsToFinalize ∧
      (finalizeClient N _client s).m_subscribers = s.m_subscribers ∧
      (finalizeClient N _client s).m_clients = s.m_clients ∧
      ∃ es, (finalizeClient N _client s).trace = s.trace ++ es ∧
        ∀ x ∈ es, x.isFini = false) := by
  refine ⟨⟨?_, ?_, ?_, ?_, wakeCalls N s.trace, ?_, ?_⟩, ⟨?_, ?_, ?_, ?_, wakeCalls N s.trace, ?_, ?_⟩⟩
  all_goals first
    | (intro x hx; exact (wakeCalls_not_fini N s.trace x hx).1)
    | simp [finalizeSubscription, finalizeClient, wakeUpLoop_eq]

/-- C4: `registerSubscriber(e)` appends `e` to the active subscribers;
`unregisterSubscriber(e)` removes every occurrence of `e`, keeps the other
subscribers with their multiplicity and relative order, and leaves the active
clients alone; the same holds for clients; and when `e` is not active,
unregistering after registering gives back the original active sets. -/
theorem register_unregister_active_sets (N N2 : Native) (s : RosThread) (e : Nat) :
    ((registerSubscriber N e s).m_subscribers = s.m_subscribers ++ [e] ∧
      (registerSubscriber N e s).m_clients = s.m_clients) ∧
    (e ∉ (unregisterSubscriber N e s).m_subscribers ∧
      List.Sublist (unregisterSubscriber N e s).m_subscribers s.m_subscribers ∧
      (∀ x, x ≠ e →
        (unregisterSubscriber N e s).m_subscribers.count x = s.m_subscribers.count x) ∧
      (unregisterSubscriber N e s).m_clients = s.m_clients) ∧
    ((registerClient N e s).m_clients = s.m_clients ++ [e] ∧
      (registerClient N e s).m_subscribers = s.m_subscribers) ∧
    (e ∉ (unregisterClient N e s).m_clients ∧
      List.Sublist (unregisterClient N e s).m_clients s.m_clients ∧
      (∀ x, x ≠ e → (unregisterClient N e s).m_clients.count x = s.m_clients.count x) ∧
      (unregisterClient N e s).m_subscribers = s.m_subscribers) ∧
    (e ∉ s.m_subscribers →
      (unregisterSubscriber N2 e (registerSubscriber N e s)).m_subscribers = s.m_subscribers ∧
      (unregisterSubscriber N2 e (registerSubscriber N e s)).m_clients = s.m_clients) ∧
    (e ∉ s.m_clients →
      (unregisterClient N2 e (registerClient N e s)).m_clients = s.m_clients ∧
      (unregisterClient N2 e (registerClient N e s)).m_subscribers = s.m_subscribers) := by
  refine ⟨⟨?_, ?_⟩, ⟨?_, ?_, ?_, ?_⟩, ⟨?_, ?_⟩, ⟨?_, ?_, ?_, ?_⟩, ?_, ?_⟩
  · simp [registerSubscriber, wakeUpLoop_eq]
  · simp [registerSubscriber, wakeUpLoop_eq]
  · simpa [unregisterSubscriber, wakeUpLoop_eq] using removeAll_not_mem s.m_subscribers e
  · simpa [unregisterSubscriber, wakeUpLoop_eq] using removeAll_sublist s.m_subscribers e
  · intro x hx
    simpa [unregisterSubscriber, wakeUpLoop_eq] using removeAll_count s.m_subscribers e x hx
  · simp [unregisterSubscriber, wakeUpLoop_eq]
  · simp [registerClient, wakeUpLoop_eq]
  · simp [registerClient, wakeUpLoop_eq]
  · simpa [unregisterClient, wakeUpLoop_eq] using removeAll_not_mem s.m_clients e
  · simpa [unregisterClient, wakeUpLoop_eq] using removeAll_sublist s.m_clients e
  · intro x hx
    simpa [unregisterClient, wakeUpLoop_eq] using removeAll_count s.m_clients e x hx
  · simp [unregisterClient, wakeUpLoop_eq]
  · intro h
    simpa [unregisterSubscriber, registerSubscriber, wakeUpLoop_eq] using
      removeAll_append_self s.m_subscribers e h
  · intro h
    simpa [unregisterClient, registerClient, wakeUpLoop_eq] using
      removeAll_append_self s.m_clients e h

/-- C4, at a concrete state: subscriber 4 registered twice among 3 and 5. -/
theorem register_unregister_active_sets_witness :
    (4 ∉ (unregisterSubscriber nativeOk 4
        { initial with m_subscribers := [4, 3, 4, 5], m_clients := [9] }).m_subscribers ∧
      (unregisterSubscriber nativeOk 4
        { initial with m_subscribers := [4, 3, 4, 5], m_clients := [9] }).m_subscribers = [3, 5]) ∧
    (7 ∉ ({ initial with m_subscribers := [4, 3, 4, 5], m_clients := [9] } : RosThread).m_subscribers ∧
      (unregisterSubscriber nativeOk 7 (registerSubscriber nativeOk 7
        { initial with m_subscribers := [4, 3, 4, 5], m_clients := [9] })).m_subscribers
        = [4, 3, 4, 5]) :=
  ⟨⟨(register_unregister_active_sets nativeOk nativeOk
        { initial with m_subscribers := [4, 3, 4, 5], m_clients := [9] } 4).2.1.1, by decide⟩,
    ⟨by decide, ((register_unregister_active_sets nativeOk nativeOk
        { initial with m_subscribers := [4, 3, 4, 5], m_clients := [9] } 7).2.2.2.2.1
          (by decide)).1⟩⟩

/-- C5: each of the six operations performs its mutation and then triggers the
wake signal exactly once: the members recorded at the moment of the trigger are
the mutated ones; a failing trigger is answered by a warning and a reset of the
error state, never by an abort, and the mutation stays in effect. -/
theorem operations_mutate_then_wake_once (N : Native) (s : RosThread)
    (_subscriber : SubscriberPtr) (_client : ServiceClientPtr)
    (_subscription : rcl_subscription_t) (_rcl_client : rcl_client_t) :
    MutatesThenWakes N s { s with m_subscribers := s.m_subscribers ++ [_subscriber] }
      (registerSubscriber N _subscriber s) ∧
    MutatesThenWakes N s { s with m_clients := s.m_clients ++ [_client] }
      (registerClient N _client s) ∧
    MutatesThenWakes N s { s with m_subscribers := removeAll s.m_subscribers _subscriber }
      (unregisterSubscriber N _subscriber s) ∧
    MutatesThenWakes N s { s with m_clients := removeAll s.m_clients _client }
      (unregisterClient N _client s) ∧
    MutatesThenWakes N s
      { s with m_subscriptionsToFinalize := s.m_subscriptionsToFinalize ++ [_subscription] }
      (finalizeSubscription N _subscription s) ∧
    MutatesThenWakes N s
      { s with m_clientsToFinalize := s.m_clientsToFinalize ++ [_rcl_client] }
      (finalizeClient N _rcl_client s) :=
  ⟨mutatesThenWakes_intro N s _ rfl rfl rfl, mutatesThenWakes_intro N s _ rfl rfl rfl,
    mutatesThenWakes_intro N s _ rfl rfl rfl, mutatesThenWakes_intro N s _ rfl rfl rfl,
    mutatesThenWakes_intro N s _ rfl rfl rfl, mutatesThenWakes_intro N s _ rfl rfl rfl⟩

theorem wakeCalls_neutral (N : Native) (tr : List Call) :
    ∀ x ∈ wakeCalls N tr, x.isFini = false ∧ x.isWaitSetUse = false ∧
      x ≠ Call.rcl_wait_set_fini := by
  unfold wakeCalls
  by_cases h : N.rcl_trigger_guard_condition tr = N.RCL_RET_OK
  · simp [h, Call.isFini, Call.isWaitSetUse]
  · simp [h, Call.isFini, Call.isWaitSetUse]

theorem handleSubscribers_eq (l : List SubscriberPtr) (s : RosThread) :
    handleSubscribers l s = { s with trace := s.trace ++ l.map Call.tryHandleMessage } := by
  induction l generalizing s with
  | nil => simp [handleSubscribers]
  | cons a l ih => simp [handleSubscribers, ih, emit]

theorem handleClients_eq (l : List ServiceClientPtr) (s : RosThread) :
    handleClients l s = { s with trace := s.trace ++ l.map Call.tryHandleAnswer } := by
  induction l generalizing s with
  | nil => simp [handleClients]
  | cons a l ih => simp [handleClients, ih, emit]

theorem Issues.refl (s : RosThread) : Issues s s [] := by
  simp [Issues]

theorem Issues.trans {a b c : RosThread} {e1 e2 : List Call}
    (h1 : Issues a b e1) (h2 : Issues b c e2) : Issues a c (e1 ++ e2) := by
  obtain ⟨p1, p2, p3, p4, p5, p6⟩ := h1
  obtain ⟨q1, q2, q3, q4, q5, q6⟩ := h2
  refine ⟨?_, q2.trans p2, q3.trans p3, q4.trans p4, q5.trans p5, fun h => q6 (p6 h)⟩
  rw [q1, p1, List.append_assoc]

theorem andThen_of_aborted {s : RosThread} (f : RosThread → RosThread)
    (h : s.aborted = true) : s.andThen f = s := by
  simp [RosThread.andThen, h]

theorem andThen_of_not_aborted {s : RosThread} (f : RosThread → RosThread)
    (h : s.aborted = false) : s.andThen f = f s := by
  simp [RosThread.andThen, h]

theorem andThen_result_not_aborted {s : RosThread} {f : RosThread → RosThread}
    (h : (s.andThen f).aborted = false) : s.aborted = false ∧ s.andThen f = f s := by
  cases hs : s.aborted
  · exact ⟨rfl, andThen_of_not_aborted f hs⟩
  · rw [andThen_of_aborted f hs] at h
    rw [hs] at h
    cases h

theorem BuildCalls.nil (N : Native) (g n m : Nat) : BuildCalls N [] g n m := by
  simp [BuildCalls]

theorem BuildCalls.append {N : Native} {e1 e2 : List Call} {g1 n1 m1 g2 n2 m2 : Nat}
    (h1 : BuildCalls N e1 g1 n1 m1) (h2 : BuildCalls N e2 g2 n2 m2) :
    BuildCalls N (e1 ++ e2) (g1 + g2) (n1 + n2) (m1 + m2) := by
  obtain ⟨a1, a2, a3, a4⟩ := h1
  obtain ⟨b1, b2, b3, b4⟩ := h2
  refine ⟨?_, ?_, ?_, ?_⟩
  · intro x hx
    rcases List.mem_append.1 hx with hx | hx
    · exact a1 x hx
    · exact b1 x hx
  · rw [List.count_append]; omega
  · rw [List.countP_append]; omega
  · rw [List.countP_append]; omega

/-- A guarded stage issues build calls when the stage itself does. -/
theorem andThen_issues {N : Native} {g n m : Nat} (s : RosThread) (f : RosThread → RosThread)
    (h : ∃ es, Issues s (f s) es ∧ BuildCalls N es g n m) :
    ∃ es, Issues s (s.andThen f) es ∧ BuildCalls N es g n m := by
  cases hs : s.aborted
  · rw [andThen_of_not_aborted f hs]; exact h
  · rw [andThen_of_aborted f hs]
    exact ⟨[], Issues.refl s, BuildCalls.nil N g n m⟩

theorem waitSetInit_ok (N : Native) (s : RosThread)
    (h : N.rcl_wait_set_init s.trace s.m_subscribers.length 1 0 s.m_clients.length 0
      = N.RCL_RET_OK) :
    waitSetInit N s =
      { s with
        wait_set :=
          { size_of_subscriptions := s.m_subscribers.length, size_of_guard_conditions := 1,
            size_of_timers := 0, size_of_clients := s.m_clients.length, size_of_services := 0,
            subscriptions := [], guard_conditions := [], clients := [] },
        trace := s.trace ++
          [Call.rcl_wait_set_init s.m_subscribers.length 1 0 s.m_clients.length 0] } := by
  simp [waitSetInit, h, emit, rcl_get_zero_initialized_wait_set]

theorem waitSetInit_fail (N : Native) (s : RosThread)
    (h : N.rcl_wait_set_init s.trace s.m_subscribers.length 1 0 s.m_clients.length 0
      ≠ N.RCL_RET_OK) :
    waitSetInit N s =
      { s with
        wait_set := rcl_get_zero_initialized_wait_set,
        trace := s.trace ++
          [Call.rcl_wait_set_init s.m_subscribers.length 1 0 s.m_clients.length 0,
            Call.qFatal Msg.FailedToInitializeWaitSet],
        aborted := true } := by
  simp [waitSetInit, h, emit, qFatal]

theorem waitSetInit_issues (N : Native) (s : RosThread) :
    ∃ es, Issues s (waitSetInit N s)
      (Call.rcl_wait_set_init s.m_subscribers.length 1 0 s.m_clients.length 0 :: es) ∧
      BuildCalls N es 0 0 0 := by
  by_cases h : N.rcl_wait_set_init s.trace s.m_subscribers.length 1 0 s.m_clients.length 0
      = N.RCL_RET_OK
  · refine ⟨[], ?_, BuildCalls.nil N 0 0 0⟩
    rw [waitSetInit_ok N s h]
    simp [Issues]
  · refine ⟨[Call.qFatal Msg.FailedToInitializeWaitSet], ?_, ?_⟩
    · rw [waitSetInit_fail N s h]
      simp [Issues]
    · refine ⟨?_, by simp, by simp [Call.isAddSubscription], by simp [Call.isAddClient]⟩
      intro x hx
      simp at hx
      exact Or.inr (Or.inr (Or.inr ⟨_, hx⟩))

theorem addGuardCondition_ok (N : Native) (s : RosThread)
    (h : N.rcl_wait_set_add_guard_condition s.trace s.wait_set = N.RCL_RET_OK) :
    addGuardCondition N s =
      { s with
        wait_set := { s.wait_set with
          guard_conditions := s.wait_set.guard_conditions ++ [GuardCondition.m_wake_up_loop] },
        trace := s.trace ++ [Call.rcl_wait_set_add_guard_condition] } := by
  simp [addGuardCondition, h, emit]

theorem addGuardCondition_fail (N : Native) (s : RosThread)
    (h : N.rcl_wait_set_add_guard_condition s.trace s.wait_set ≠ N.RCL_RET_OK) :
    addGuardCondition N s =
      { s with
        trace := s.trace ++ [Call.rcl_wait_set_add_guard_condition,
          Call.qFatal Msg.ErrorWhenAddingGuardCondition],
        aborted := true } := by
  simp [addGuardCondition, h, emit, qFatal]

theorem addGuardCondition_issues (N : Native) (s : RosThread) :
    ∃ es, Issues s (addGuardCondition N s) es ∧ BuildCalls N es 1 0 0 := by
  by_cases h : N.rcl_wait_set_add_guard_condition s.trace s.wait_set = N.RCL_RET_OK
  · refine ⟨[Call.rcl_wait_set_add_guard_condition], ?_, ?_⟩
    · rw [addGuardCondition_ok N s h]
      simp [Issues]
    · refine ⟨?_, by simp, by simp [Call.isAddSubscription], by simp [Call.isAddClient]⟩
      intro x hx
      simp at hx
      exact Or.inl hx
  · refine ⟨[Call.rcl_wait_set_add_guard_condition,
      Call.qFatal Msg.ErrorWhenAddingGuardCondition], ?_, ?_⟩
    · rw [addGuardCondition_fail N s h]
      simp [Issues]
    · refine ⟨?_, by simp, by simp [Call.isAddSubscription], by simp [Call.isAddClient]⟩
      intro x hx
      simp at hx
      rcases hx with hx | hx
      · exact Or.inl hx
      · exact Or.inr (Or.inr (Or.inr ⟨_, hx⟩))

theorem countP_eq_zero_of_forall {α : Type} (p : α → Bool) (l : List α)
    (h : ∀ x ∈ l, p x = false) : l.countP p = 0 := by
  rw [List.countP_eq_zero]
  intro x hx
  simp [h x hx]

/-- The shape of the result of the subscription loop of the build phase. -/
theorem addSubscriptions_shape (N : Native) (l : List SubscriberPtr) (s : RosThread) :
    ∃ subs es ab,
      addSubscriptions N l s =
        { s with wait_set := { s.wait_set with subscriptions := subs },
                 trace := s.trace ++ es, aborted := ab } ∧
      (s.aborted = true → ab = true) ∧
      (ab = false → subs = s.wait_set.subscriptions ++ l.filter N.rcl_subscription_is_valid) ∧
      (∀ x ∈ es, (∃ sub, x = Call.rcl_wait_set_add_subscription sub ∧
          N.rcl_subscription_is_valid sub = true) ∨
        x = Call.qFatal Msg.ErrorWhenAddingSubscription) ∧
      es.countP Call.isAddSubscription ≤ l.length := by
  induction l generalizing s with
  | nil =>
    exact ⟨s.wait_set.subscriptions, [], s.aborted, by simp [addSubscriptions], by simp,
      by simp, by simp, by simp⟩
  | cons a l ih =>
    by_cases hv : N.rcl_subscription_is_valid a = true
    · by_cases hr : N.rcl_wait_set_add_subscription s.trace s.wait_set a = N.RCL_RET_OK
      · obtain ⟨subs, es, ab, h1, h2, h3, h4, h5⟩ := ih
          { emit (Call.rcl_wait_set_add_subscription a) s with wait_set :=
            { s.wait_set with subscriptions := s.wait_set.subscriptions ++ [a] } }
        refine ⟨subs, Call.rcl_wait_set_add_subscription a :: es, ab, ?_, ?_, ?_, ?_, ?_⟩
        · simp [addSubscriptions, hv, hr, emit] at h1 ⊢
          rw [h1]
        · simpa [emit] using h2
        · intro hab
          simpa [emit, hv, List.filter_cons] using h3 hab
        · intro x hx
          rcases List.mem_cons.1 hx with hx | hx
          · exact Or.inl ⟨a, hx, hv⟩
          · exact h4 x hx
        · simp [Call.isAddSubscription]
          omega
      · refine ⟨s.wait_set.subscriptions,
          [Call.rcl_wait_set_add_subscription a, Call.qFatal Msg.ErrorWhenAddingSubscription],
          true, ?_, by simp, by simp, ?_, by simp [Call.isAddSubscription, List.countP_cons]⟩
        · simp [addSubscriptions, hv, hr, emit, qFatal]
        · intro x hx
          simp at hx
          rcases hx with hx | hx
          · exact Or.inl ⟨a, hx, hv⟩
          · exact Or.inr hx
    · obtain ⟨subs, es, ab, h1, h2, h3, h4, h5⟩ := ih s
      refine ⟨subs, es, ab, ?_, h2, ?_, h4, ?_⟩
      · simp [addSubscriptions, hv, h1]
      · intro hab
        simpa [hv, List.filter_cons] using h3 hab
      · simp; omega

/-- The shape of the result of the client loop of the build phase. -/
theorem addClients_shape (N : Native) (l : List ServiceClientPtr) (s : RosThread) :
    ∃ cls es ab,
      addClients N l s =
        { s with wait_set := { s.wait_set with clients := cls },
                 trace := s.trace ++ es, aborted := ab } ∧
      (s.aborted = true → ab = true) ∧
      (ab = false → cls = s.wait_set.clients ++ l.filter N.rcl_client_is_valid) ∧
      (∀ x ∈ es, (∃ cl, x = Call.rcl_wait_set_add_client cl ∧
          N.rcl_client_is_valid cl = true) ∨
        x = Call.qFatal Msg.ErrorWhenAddingClient) ∧
      es.countP Call.isAddClient ≤ l.length := by
  induction l generalizing s with
  | nil =>
    exact ⟨s.wait_set.clients, [], s.aborted, by simp [addClients], by simp,
      by simp, by simp, by simp⟩
  | cons a l ih =>
    by_cases hv : N.rcl_client_is_valid a = true
    · by_cases hr : N.rcl_wait_set_add_client s.trace s.wait_set a = N.RCL_RET_OK
      · obtain ⟨cls, es, ab, h1, h2, h3, h4, h5⟩ := ih
          { emit (Call.rcl_wait_set_add_client a) s with wait_set :=
            { s.wait_set with clients := s.wait_set.clients ++ [a] } }
        refine ⟨cls, Call.rcl_wait_set_add_client a :: es, ab, ?_, ?_, ?_, ?_, ?_⟩
        · simp [addClients, hv, hr, emit] at h1 ⊢
          rw [h1]
        · simpa [emit] using h2
        · intro hab
          simpa [emit, hv, List.filter_cons] using h3 hab
        · intro x hx
          rcases List.mem_cons.1 hx with hx | hx
          · exact Or.inl ⟨a, hx, hv⟩
          · exact h4 x hx
        · simp [Call.isAddClient]
          omega
      · refine ⟨s.wait_set.clients,
          [Call.rcl_wait_set_add_client a, Call.qFatal Msg.ErrorWhenAddingClient],
          true, ?_, by simp, by simp, ?_, by simp [Call.isAddClient, List.countP_cons]⟩
        · simp [addClients, hv, hr, emit, qFatal]
        · intro x hx
          simp at hx
          rcases hx with hx | hx
          · exact Or.inl ⟨a, hx, hv⟩
          · exact Or.inr hx
    · obtain ⟨cls, es, ab, h1, h2, h3, h4, h5⟩ := ih s
      refine ⟨cls, es, ab, ?_, h2, ?_, h4, ?_⟩
      · simp [addClients, hv, h1]
      · intro hab
        simpa [hv, List.filter_cons] using h3 hab
      · simp; omega

theorem addSubscriptions_issues (N : Native) (l : List SubscriberPtr) (s : RosThread) :
    ∃ es, Issues s (addSubscriptions N l s) es ∧ BuildCalls N es 0 l.length 0 := by
  obtain ⟨subs, es, ab, h1, h2, _, h4, h5⟩ := addSubscriptions_shape N l s
  refine ⟨es, ?_, ?_, ?_, h5, ?_⟩
  · rw [h1]; simpa [Issues] using h2
  · intro x hx
    rcases h4 x hx with ⟨sub, h, hv⟩ | h
    · exact Or.inr (Or.inl ⟨sub, h, hv⟩)
    · exact Or.inr (Or.inr (Or.inr ⟨_, h⟩))
  · rw [Nat.le_zero, List.count_eq_zero]
    intro hmem
    rcases h4 _ hmem with ⟨_, h, _⟩ | h <;> simp at h
  · rw [Nat.le_zero]
    apply countP_eq_zero_of_forall
    intro x hx
    rcases h4 x hx with ⟨_, h, _⟩ | h <;> simp [h, Call.isAddClient]

theorem addClients_issues (N : Native) (l : List ServiceClientPtr) (s : RosThread) :
    ∃ es, Issues s (addClients N l s) es ∧ BuildCalls N es 0 0 l.length := by
  obtain ⟨cls, es, ab, h1, h2, _, h4, h5⟩ := addClients_shape N l s
  refine ⟨es, ?_, ?_, ?_, ?_, h5⟩
  · rw [h1]; simpa [Issues] using h2
  · intro x hx
    rcases h4 x hx with ⟨cl, h, hv⟩ | h
    · exact Or.inr (Or.inr (Or.inl ⟨cl, h, hv⟩))
    · exact Or.inr (Or.inr (Or.inr ⟨_, h⟩))
  · rw [Nat.le_zero, List.count_eq_zero]
    intro hmem
    rcases h4 _ hmem with ⟨_, h, _⟩ | h <;> simp at h
  · rw [Nat.le_zero]
    apply countP_eq_zero_of_forall
    intro x hx
    rcases h4 x hx with ⟨_, h, _⟩ | h <;> simp [h, Call.isAddSubscription]

theorem addSubscriptions_result (N : Native) (l : List SubscriberPtr) (s : RosThread)
    (h : (addSubscriptions N l s).aborted = false) :
    (addSubscriptions N l s).wait_set =
        { s.wait_set with subscriptions :=
            s.wait_set.subscriptions ++ l.filter N.rcl_subscription_is_valid } ∧
      (addSubscriptions N l s).pc = s.pc := by
  obtain ⟨subs, es, ab, h1, _, h3, _, _⟩ := addSubscriptions_shape N l s
  rw [h1] at h ⊢
  simp at h
  simp [h3 h]

theorem addClients_result (N : Native) (l : List ServiceClientPtr) (s : RosThread)
    (h : (addClients N l s).aborted = false) :
    (addClients N l s).wait_set =
        { s.wait_set with clients := s.wait_set.clients ++ l.filter N.rcl_client_is_valid } ∧
      (addClients N l s).pc = s.pc := by
  obtain ⟨cls, es, ab, h1, _, h3, _, _⟩ := addClients_shape N l s
  rw [h1] at h ⊢
  simp at h
  simp [h3 h]

theorem addSubscriptions_pc (N : Native) (l : List SubscriberPtr) (s : RosThread) :
    (addSubscriptions N l s).pc = s.pc := by
  obtain ⟨subs, es, ab, h1, _⟩ := addSubscriptions_shape N l s
  rw [h1]

theorem addClients_pc (N : Native) (l : List ServiceClientPtr) (s : RosThread) :
    (addClients N l s).pc = s.pc := by
  obtain ⟨cls, es, ab, h1, _⟩ := addClients_shape N l s
  rw [h1]

/-- With room for every remaining subscriber, the subscription loop does not
abort when the native add fails only on a full wait set. -/
theorem addSubscriptions_room (N : Native)
    (hN : ∀ tr ws sub, ws.subscriptions.length < ws.size_of_subscriptions →
      N.rcl_wait_set_add_subscription tr ws sub = N.RCL_RET_OK)
    (l : List SubscriberPtr) (s : RosThread)
    (hroom : s.wait_set.subscriptions.length + l.length ≤ s.wait_set.size_of_subscriptions) :
    (addSubscriptions N l s).aborted = s.aborted := by
  induction l generalizing s with
  | nil => simp [addSubscriptions]
  | cons a l ih =>
    simp only [List.length_cons] at hroom
    by_cases hv : N.rcl_subscription_is_valid a = true
    · have hr := hN s.trace s.wait_set a (by omega)
      simp only [addSubscriptions, hv, hr, emit]
      simp only [ne_eq, not_true_eq_false, ↓reduceIte]
      rw [ih]
      simp only [List.length_append, List.length_singleton]
      omega
    · simp only [addSubscriptions, hv]
      exact ih s (by omega)

/-- With room for every remaining client, the client loop does not abort when
the native add fails only on a full wait set. -/
theorem addClients_room (N : Native)
    (hN : ∀ tr ws cl, ws.clients.length < ws.size_of_clients →
      N.rcl_wait_set_add_client tr ws cl = N.RCL_RET_OK)
    (l : List ServiceClientPtr) (s : RosThread)
    (hroom : s.wait_set.clients.length + l.length ≤ s.wait_set.size_of_clients) :
    (addClients N l s).aborted = s.aborted := by
  induction l generalizing s with
  | nil => simp [addClients]
  | cons a l ih =>
    simp only [List.length_cons] at hroom
    by_cases hv : N.rcl_client_is_valid a = true
    · have hr := hN s.trace s.wait_set a (by omega)
      simp only [addClients, hv, hr, emit]
      simp only [ne_eq, not_true_eq_false, ↓reduceIte]
      rw [ih]
      simp only [List.length_append, List.length_singleton]
      omega
    · simp only [addClients, hv]
      exact ih s (by omega)

/-- The calls of the build phase: the `rcl_wait_set_init` with the capacities,
then build calls, of which at most one adds the wake signal, at most
`m_subscribers.size()` add a subscription and at most `m_clients.size()` add a
client. -/
theorem buildWaitSet_issues (N : Native) (s : RosThread) :
    ∃ es, Issues s (buildWaitSet N s)
        (Call.rcl_wait_set_init s.m_subscribers.length 1 0 s.m_clients.length 0 :: es) ∧
      BuildCalls N es 1 s.m_subscribers.length s.m_clients.length := by
  obtain ⟨e1, i1, b1⟩ := waitSetInit_issues N s
  obtain ⟨e2, i2, b2⟩ := andThen_issues (waitSetInit N s) (addGuardCondition N)
    (addGuardCondition_issues N _)
  obtain ⟨e3, i3, b3⟩ := andThen_issues ((waitSetInit N s).andThen (addGuardCondition N))
    (fun s1 => addSubscriptions N s1.m_subscribers s1) (addSubscriptions_issues N _ _)
  obtain ⟨e4, i4, b4⟩ := andThen_issues
    (((waitSetInit N s).andThen (addGuardCondition N)).andThen
      (fun s1 => addSubscriptions N s1.m_subscribers s1))
    (fun s2 => addClients N s2.m_clients s2) (addClients_issues N _ _)
  obtain ⟨e5, i5, b5⟩ := @andThen_issues N 0 0 0
    ((((waitSetInit N s).andThen (addGuardCondition N)).andThen
      (fun s1 => addSubscriptions N s1.m_subscribers s1)).andThen
      (fun s2 => addClients N s2.m_clients s2))
    (fun s3 => { s3 with pc := Pc.wait })
    ⟨[], by simp [Issues], BuildCalls.nil N 0 0 0⟩
  have hm2 := i2.2.1
  have hm1 := i1.2.1
  have hc3 := i3.2.2.1
  have hc2 := i2.2.2.1
  have hc1 := i1.2.2.1
  rw [hm2, hm1] at b3
  rw [hc3, hc2, hc1] at b4
  refine ⟨e1 ++ e2 ++ e3 ++ e4 ++ e5, ?_, ?_⟩
  · have := (((i1.trans i2).trans i3).trans i4).trans i5
    simpa [buildWaitSet] using this
  · have := (((b1.append b2).append b3).append b4).append b5
    simpa using this

/-- The wait set right after a successful `rcl_wait_set_init`. -/
theorem waitSetInit_ok_facts (N : Native) (s : RosThread)
    (h : N.rcl_wait_set_init s.trace s.m_subscribers.length 1 0 s.m_clients.length 0
      = N.RCL_RET_OK) :
    (waitSetInit N s).aborted = s.aborted ∧ (waitSetInit N s).pc = s.pc ∧
    (waitSetInit N s).m_subscribers = s.m_subscribers ∧
    (waitSetInit N s).m_clients = s.m_clients ∧
    (waitSetInit N s).wait_set =
      { size_of_subscriptions := s.m_subscribers.length, size_of_guard_conditions := 1,
        size_of_timers := 0, size_of_clients := s.m_clients.length, size_of_services := 0,
        subscriptions := [], guard_conditions := [], clients := [] } := by
  rw [waitSetInit_ok N s h]
  simp

theorem waitSetInit_not_aborted (N : Native) (s : RosThread)
    (h : (waitSetInit N s).aborted = false) :
    N.rcl_wait_set_init s.trace s.m_subscribers.length 1 0 s.m_clients.length 0
      = N.RCL_RET_OK := by
  by_contra hne
  rw [waitSetInit_fail N s hne] at h
  simp at h

theorem addGuardCondition_ok_facts (N : Native) (s : RosThread)
    (h : N.rcl_wait_set_add_guard_condition s.trace s.wait_set = N.RCL_RET_OK) :
    (addGuardCondition N s).aborted = s.aborted ∧ (addGuardCondition N s).pc = s.pc ∧
    (addGuardCondition N s).m_subscribers = s.m_subscribers ∧
    (addGuardCondition N s).m_clients = s.m_clients ∧
    (addGuardCondition N s).wait_set =
      { s.wait_set with
        guard_conditions := s.wait_set.guard_conditions ++ [GuardCondition.m_wake_up_loop] } := by
  rw [addGuardCondition_ok N s h]
  simp

theorem addGuardCondition_not_aborted (N : Native) (s : RosThread)
    (h : (addGuardCondition N s).aborted = false) :
    N.rcl_wait_set_add_guard_condition s.trace s.wait_set = N.RCL_RET_OK := by
  by_contra hne
  rw [addGuardCondition_fail N s hne] at h
  simp at h

/-- The build phase when none of its four stages aborts. -/
theorem buildWaitSet_eq (N : Native) (s : RosThread)
    (a1 : (waitSetInit N s).aborted = false)
    (a2 : (addGuardCondition N (waitSetInit N s)).aborted = false)
    (a3 : (addSubscriptions N (addGuardCondition N (waitSetInit N s)).m_subscribers
      (addGuardCondition N (waitSetInit N s))).aborted = false)
    (a4 : (addClients N
      (addSubscriptions N (addGuardCondition N (waitSetInit N s)).m_subscribers
        (addGuardCondition N (waitSetInit N s))).m_clients
      (addSubscriptions N (addGuardCondition N (waitSetInit N s)).m_subscribers
        (addGuardCondition N (waitSetInit N s)))).aborted = false) :
    buildWaitSet N s =
      { addClients N
          (addSubscriptions N (addGuardCondition N (waitSetInit N s)).m_subscribers
            (addGuardCondition N (waitSetInit N s))).m_clients
          (addSubscriptions N (addGuardCondition N (waitSetInit N s)).m_subscribers
            (addGuardCondition N (waitSetInit N s))) with pc := Pc.wait } := by
  unfold buildWaitSet
  rw [andThen_of_not_aborted _ a1, andThen_of_not_aborted _ a2, andThen_of_not_aborted _ a3,
    andThen_of_not_aborted _ a4]

/-- A build phase that did not abort ran its four stages. -/
theorem buildWaitSet_stages (N : Native) (s : RosThread)
    (h : (buildWaitSet N s).aborted = false) :
    (waitSetInit N s).aborted = false ∧
    (addGuardCondition N (waitSetInit N s)).aborted = false ∧
    (addSubscriptions N (addGuardCondition N (waitSetInit N s)).m_subscribers
      (addGuardCondition N (waitSetInit N s))).aborted = false ∧
    (addClients N
      (addSubscriptions N (addGuardCondition N (waitSetInit N s)).m_subscribers
        (addGuardCondition N (waitSetInit N s))).m_clients
      (addSubscriptions N (addGuardCondition N (waitSetInit N s)).m_subscribers
        (addGuardCondition N (waitSetInit N s)))).aborted = false := by
  unfold buildWaitSet at h
  obtain ⟨h4, _⟩ := andThen_result_not_aborted h
  obtain ⟨h3, e4⟩ := andThen_result_not_aborted h4
  obtain ⟨h2, e3⟩ := andThen_result_not_aborted h3
  obtain ⟨h1, e2⟩ := andThen_result_not_aborted h2
  rw [e2] at h2 e3 e4 h3 h4
  rw [e3] at h3 e4 h4
  rw [e4] at h4
  exact ⟨h1, h2, h3, h4⟩

/-- A build phase that did not abort leaves the wait set with the capacities,
the wake signal, and the valid subscribers and clients in active-set order. -/
theorem buildWaitSet_result (N : Native) (s : RosThread)
    (h : (buildWaitSet N s).aborted = false) :
    (buildWaitSet N s).wait_set =
        { size_of_subscriptions := s.m_subscribers.length, size_of_guard_conditions := 1,
          size_of_timers := 0, size_of_clients := s.m_clients.length, size_of_services := 0,
          subscriptions := s.m_subscribers.filter N.rcl_subscription_is_valid,
          guard_conditions := [GuardCondition.m_wake_up_loop],
          clients := s.m_clients.filter N.rcl_client_is_valid } ∧
      (buildWaitSet N s).pc = Pc.wait := by
  obtain ⟨a1, a2, a3, a4⟩ := buildWaitSet_stages N s h
  rw [buildWaitSet_eq N s a1 a2 a3 a4]
  obtain ⟨_, _, m1, c1, w1⟩ := waitSetInit_ok_facts N s (waitSetInit_not_aborted N s a1)
  obtain ⟨_, _, m2, c2, w2⟩ := addGuardCondition_ok_facts N _
    (addGuardCondition_not_aborted N _ a2)
  have r3 := (addSubscriptions_result N _ _ a3).1
  have r4 := (addClients_result N _ _ a4).1
  obtain ⟨_, i3, _⟩ := addSubscriptions_issues N
    (addGuardCondition N (waitSetInit N s)).m_subscribers (addGuardCondition N (waitSetInit N s))
  have c3 := i3.2.2.1
  refine ⟨?_, rfl⟩
  show (addClients N _ _).wait_set = _
  rw [r4, r3, c3, c2, c1, m2, m1, w2, w1]
  simp

/-- A build phase on which `rcl_wait_set_init` succeeds and the native add
functions fail only on a full wait set does not abort. -/
theorem buildWaitSet_room (N : Native) (s : RosThread) (hN : N.AddFailsOnlyWhenFull)
    (hi : N.rcl_wait_set_init s.trace s.m_subscribers.length 1 0 s.m_clients.length 0
      = N.RCL_RET_OK)
    (hs : s.aborted = false) : (buildWaitSet N s).aborted = false := by
  obtain ⟨b1, _, m1, c1, w1⟩ := waitSetInit_ok_facts N s hi
  have a1 := b1.trans hs
  have hg : N.rcl_wait_set_add_guard_condition (waitSetInit N s).trace
      (waitSetInit N s).wait_set = N.RCL_RET_OK := by
    apply hN.1
    rw [w1]
    simp
  obtain ⟨b2, _, m2, c2, w2⟩ := addGuardCondition_ok_facts N _ hg
  have a2 := b2.trans a1
  have b3 := addSubscriptions_room N hN.2.1 (addGuardCondition N (waitSetInit N s)).m_subscribers
    (addGuardCondition N (waitSetInit N s)) (by rw [w2, w1, m2, m1]; simp)
  have a3 := b3.trans a2
  have r3 := (addSubscriptions_result N _ _ a3).1
  obtain ⟨_, i3, _⟩ := addSubscriptions_issues N
    (addGuardCondition N (waitSetInit N s)).m_subscribers (addGuardCondition N (waitSetInit N s))
  have c3 := i3.2.2.1
  have b4 := addClients_room N hN.2.2
    (addSubscriptions N (addGuardCondition N (waitSetInit N s)).m_subscribers
      (addGuardCondition N (waitSetInit N s))).m_clients
    (addSubscriptions N (addGuardCondition N (waitSetInit N s)).m_subscribers
      (addGuardCondition N (waitSetInit N s)))
    (by rw [r3, c3, w2, w1, c2, c1]; simp)
  have a4 := b4.trans a3
  rw [buildWaitSet_eq N s a1 a2 a3 a4]
  exact a4

/-- An aborted build phase leaves the loop thread where it was. -/
theorem buildWaitSet_pc (N : Native) (s : RosThread) :
    (buildWaitSet N s).pc = if (buildWaitSet N s).aborted = true then s.pc else Pc.wait := by
  cases h : (buildWaitSet N s).aborted
  · simp [(buildWaitSet_result N s h).2]
  · simp only [if_true]
    unfold buildWaitSet at h ⊢
    simp only [RosThread.andThen] at h ⊢
    have p1 : (waitSetInit N s).pc = s.pc := by
      unfold waitSetInit; simp only [emit, qFatal]; split <;> rfl
    have p2 : ∀ t, (addGuardCondition N t).pc = t.pc := by
      intro t; unfold addGuardCondition; simp only [emit, qFatal]; split <;> rfl
    split_ifs at h ⊢ <;>
      simp_all [addSubscriptions_pc, addClients_pc]

theorem answeredBlocks_nil {α : Type} (answer : List Call → α → rcl_ret_t) (ok : rcl_ret_t)
    (fini : α → Call) (warn : Msg) (tr : List Call) :
    AnsweredBlocks answer ok fini warn tr [] [] := by
  refine ⟨rfl, ?_⟩
  intro i e h
  simp at h

theorem answeredBlocks_cons {α : Type} (answer : List Call → α → rcl_ret_t) (ok : rcl_ret_t)
    (fini : α → Call) (warn : Msg) (tr : List Call) (e : α) (q : List α)
    (b : List Call) (blocks : List (List Call))
    (hb : b = finiBlock (answer tr e) ok (fini e) warn)
    (h : AnsweredBlocks answer ok fini warn (tr ++ b) q blocks) :
    AnsweredBlocks answer ok fini warn tr (e :: q) (b :: blocks) := by
  obtain ⟨hlen, hall⟩ := h
  refine ⟨by simp [hlen], ?_⟩
  intro i x hx
  cases i with
  | zero =>
    simp only [List.getElem?_cons_zero, Option.some.injEq] at hx
    subst hx
    simp [hb]
  | succ i =>
    simp only [List.getElem?_cons_succ] at hx
    have := hall i x hx
    simpa [List.append_assoc] using this

theorem finalizeSubscriptions_shape (N : Native) (q : List rcl_subscription_t) (s : RosThread) :
    ∃ blocks,
      List.Forall₂ (fun e b =>
        FiniBlock (Call.rcl_subscription_fini e) Msg.FailedToFinalizeSubscription b) q blocks ∧
      finalizeSubscriptions N q s = { s with trace := s.trace ++ blocks.flatten } ∧
      AnsweredBlocks N.rcl_subscription_fini N.RCL_RET_OK Call.rcl_subscription_fini
        Msg.FailedToFinalizeSubscription s.trace q blocks := by
  induction q generalizing s with
  | nil => exact ⟨[], List.Forall₂.nil, by simp [finalizeSubscriptions],
      answeredBlocks_nil _ _ _ _ _⟩
  | cons e q ih =>
    by_cases hr : N.rcl_subscription_fini s.trace e = N.RCL_RET_OK
    · obtain ⟨blocks, hb, heq, ha⟩ := ih (emit (Call.rcl_subscription_fini e) s)
      refine ⟨[Call.rcl_subscription_fini e] :: blocks, List.Forall₂.cons (Or.inl rfl) hb,
        ?_, ?_⟩
      · simp [emit] at heq
        simp [finalizeSubscriptions, hr, heq, emit]
      · exact answeredBlocks_cons _ _ _ _ _ _ _ _ _ (by simp [finiBlock, hr]) ha
    · obtain ⟨blocks, hb, heq, ha⟩ := ih (emit Call.rcl_reset_error
        (emit (Call.qWarning Msg.FailedToFinalizeSubscription)
          (emit (Call.rcl_subscription_fini e) s)))
      refine ⟨[Call.rcl_subscription_fini e, Call.qWarning Msg.FailedToFinalizeSubscription,
        Call.rcl_reset_error] :: blocks, List.Forall₂.cons (Or.inr rfl) hb, ?_, ?_⟩
      · simp [emit] at heq
        simp [finalizeSubscriptions, hr, heq, emit]
      · refine answeredBlocks_cons _ _ _ _ _ _ _ _ _ (by simp [finiBlock, hr]) ?_
        simpa [emit, List.append_assoc] using ha

theorem finalizeClients_shape (N : Native) (q : List rcl_client_t) (s : RosThread) :
    ∃ blocks,
      List.Forall₂ (fun e b =>
        FiniBlock (Call.rcl_client_fini e) Msg.FailedToFinalizeClient b) q blocks ∧
      finalizeClients N q s = { s with trace := s.trace ++ blocks.flatten } ∧
      AnsweredBlocks N.rcl_client_fini N.RCL_RET_OK Call.rcl_client_fini
        Msg.FailedToFinalizeClient s.trace q blocks := by
  induction q generalizing s with
  | nil => exact ⟨[], List.Forall₂.nil, by simp [finalizeClients],
      answeredBlocks_nil _ _ _ _ _⟩
  | cons e q ih =>
    by_cases hr : N.rcl_client_fini s.trace e = N.RCL_RET_OK
    · obtain ⟨blocks, hb, heq, ha⟩ := ih (emit (Call.rcl_client_fini e) s)
      refine ⟨[Call.rcl_client_fini e] :: blocks, List.Forall₂.cons (Or.inl rfl) hb, ?_, ?_⟩
      · simp [emit] at heq
        simp [finalizeClients, hr, heq, emit]
      · exact answeredBlocks_cons _ _ _ _ _ _ _ _ _ (by simp [finiBlock, hr]) ha
    · obtain ⟨blocks, hb, heq, ha⟩ := ih (emit Call.rcl_reset_error
        (emit (Call.qWarning Msg.FailedToFinalizeClient)
          (emit (Call.rcl_client_fini e) s)))
      refine ⟨[Call.rcl_client_fini e, Call.qWarning Msg.FailedToFinalizeClient,
        Call.rcl_reset_error] :: blocks, List.Forall₂.cons (Or.inr rfl) hb, ?_, ?_⟩
      · simp [emit] at heq
        simp [finalizeClients, hr, heq, emit]
      · refine answeredBlocks_cons _ _ _ _ _ _ _ _ _ (by simp [finiBlock, hr]) ?_
        simpa [emit, List.append_assoc] using ha

/-- The finalize phase: one block of calls per queued subscription, then one
per queued client; the members, the wait set and the abort flag are untouched. -/
theorem finalizeQueues_shape (N : Native) (s : RosThread) :
    ∃ bs bc,
      List.Forall₂ (fun e b =>
        FiniBlock (Call.rcl_subscription_fini e) Msg.FailedToFinalizeSubscription b)
        s.m_subscriptionsToFinalize bs ∧
      List.Forall₂ (fun e b =>
        FiniBlock (Call.rcl_client_fini e) Msg.FailedToFinalizeClient b)
        s.m_clientsToFinalize bc ∧
      finalizeQueues N s =
        { s with trace := s.trace ++ (bs.flatten ++ bc.flatten), pc := Pc.handleSubscribers } ∧
      AnsweredBlocks N.rcl_subscription_fini N.RCL_RET_OK Call.rcl_subscription_fini
        Msg.FailedToFinalizeSubscription s.trace s.m_subscriptionsToFinalize bs ∧
      AnsweredBlocks N.rcl_client_fini N.RCL_RET_OK Call.rcl_client_fini
        Msg.FailedToFinalizeClient (s.trace ++ bs.flatten) s.m_clientsToFinalize bc := by
  obtain ⟨bs, hbs, e1, a1⟩ := finalizeSubscriptions_shape N s.m_subscriptionsToFinalize s
  have hq : (finalizeSubscriptions N s.m_subscriptionsToFinalize s).m_clientsToFinalize
      = s.m_clientsToFinalize := by rw [e1]
  have ht : (finalizeSubscriptions N s.m_subscriptionsToFinalize s).trace
      = s.trace ++ bs.flatten := by rw [e1]
  obtain ⟨bc, hbc, e2, a2⟩ := finalizeClients_shape N
    (finalizeSubscriptions N s.m_subscriptionsToFinalize s).m_clientsToFinalize
    (finalizeSubscriptions N s.m_subscriptionsToFinalize s)
  rw [hq] at hbc
  rw [hq, ht] at a2
  refine ⟨bs, bc, hbs, hbc, ?_, a1, a2⟩
  unfold finalizeQueues
  simp only []
  rw [e2, e1]
  simp

/-- The calls of the blocks of a queue: its finalize calls in queue order, and
otherwise only warnings and resets of the error state. -/
theorem finiBlocks_calls {α : Type} (fini : α → Call) (warn : Msg)
    (hf : ∀ e, (fini e).isFini = true)
    (q : List α) (blocks : List (List Call))
    (h : List.Forall₂ (fun e b => FiniBlock (fini e) warn b) q blocks) :
    blocks.flatten.filter Call.isFini = q.map fini ∧
    ∀ x ∈ blocks.flatten, x.isFini = true ∨ x = Call.qWarning warn ∨ x = Call.rcl_reset_error := by
  induction q generalizing blocks with
  | nil =>
    cases h
    simp
  | cons e q ih =>
    cases h with
    | cons hb hrest =>
      rename_i b rest
      obtain ⟨ih1, ih2⟩ := ih rest hrest
      have hfe := hf e
      rcases hb with hb | hb
      · subst hb
        refine ⟨by simp [List.filter_cons, hfe, ih1], ?_⟩
        intro x hx
        simp only [List.flatten_cons, List.mem_append, List.mem_singleton] at hx
        rcases hx with hx | hx
        · exact Or.inl (hx ▸ hfe)
        · exact ih2 x hx
      · subst hb
        have w : (Call.qWarning warn).isFini = false := rfl
        have r : Call.rcl_reset_error.isFini = false := rfl
        refine ⟨by simp [List.filter_cons, hfe, ih1, w, r], ?_⟩
        intro x hx
        simp only [List.flatten_cons, List.mem_append, List.mem_cons, List.mem_singleton,
          List.not_mem_nil, or_false] at hx
        rcases hx with (hx | hx | hx) | hx
        · exact Or.inl (hx ▸ hfe)
        · exact Or.inr (Or.inl hx)
        · exact Or.inr (Or.inr hx)
        · exact ih2 x hx

theorem next_neutral (st : WaitSetStatus) (c : Call) (h1 : c.isWaitSetUse = false)
    (h2 : c ≠ Call.rcl_wait_set_fini) : st.next c = st := by
  cases c <;> simp_all [WaitSetStatus.next, Call.isWaitSetUse]

theorem next_released (c : Call) (h1 : c.isWaitSetUse = false) :
    WaitSetStatus.released.next c = WaitSetStatus.released := by
  cases c <;> simp_all [WaitSetStatus.next, Call.isWaitSetUse]

theorem next_use (st : WaitSetStatus) (c : Call) (h1 : c ≠ Call.rcl_wait)
    (h2 : c.isWaitSetUse = true) : st.next c = WaitSetStatus.other := by
  cases c <;> simp_all [WaitSetStatus.next, Call.isWaitSetUse]

theorem foldl_next_neutral (st : WaitSetStatus) (es : List Call)
    (h : ∀ x ∈ es, x.isWaitSetUse = false ∧ x ≠ Call.rcl_wait_set_fini) :
    es.foldl WaitSetStatus.next st = st := by
  induction es generalizing st with
  | nil => rfl
  | cons x xs ih =>
    have hx := h x (List.mem_cons_self x xs)
    simp only [List.foldl_cons]
    rw [next_neutral st x hx.1 hx.2]
    exact ih st (fun y hy => h y (List.mem_cons_of_mem x hy))

theorem foldl_next_released (es : List Call) (h : ∀ x ∈ es, x.isWaitSetUse = false) :
    es.foldl WaitSetStatus.next WaitSetStatus.released = WaitSetStatus.released := by
  induction es with
  | nil => rfl
  | cons x xs ih =>
    simp only [List.foldl_cons]
    rw [next_released x (h x (List.mem_cons_self x xs))]
    exact ih (fun y hy => h y (List.mem_cons_of_mem x hy))

theorem finiWhenReleased_append (st : WaitSetStatus) (a b : List Call) :
    finiWhenReleased st (a ++ b) ↔
      finiWhenReleased st a ∧ finiWhenReleased (a.foldl WaitSetStatus.next st) b := by
  induction a generalizing st with
  | nil => simp [finiWhenReleased]
  | cons x xs ih => simp [finiWhenReleased, ih, and_assoc]

theorem finiWhenReleased_of_no_fini (st : WaitSetStatus) (es : List Call)
    (h : ∀ x ∈ es, x.isFini = false) : finiWhenReleased st es := by
  induction es generalizing st with
  | nil => trivial
  | cons x xs ih =>
    refine ⟨?_, ih _ (fun y hy => h y (List.mem_cons_of_mem x hy))⟩
    intro hx
    rw [h x (List.mem_cons_self x xs)] at hx
    cases hx

theorem finiWhenReleased_released (es : List Call) (h : ∀ x ∈ es, x.isWaitSetUse = false) :
    finiWhenReleased WaitSetStatus.released es := by
  induction es with
  | nil => trivial
  | cons x xs ih =>
    refine ⟨fun _ => rfl, ?_⟩
    rw [next_released x (h x (List.mem_cons_self x xs))]
    exact ih (fun y hy => h y (List.mem_cons_of_mem x hy))

theorem finiWhenReleased_split (st : WaitSetStatus) (pre post : List Call) (x : Call)
    (h : finiWhenReleased st (pre ++ x :: post)) (hx : x.isFini = true) :
    pre.foldl WaitSetStatus.next st = WaitSetStatus.released := by
  rw [finiWhenReleased_append] at h
  exact h.2.1 hx

/-- What the status says about the trace. -/
theorem waitSetStatus_decomp (pre : List Call) :
    (waitSetStatus pre = WaitSetStatus.waited →
      ∃ a b, pre = a ++ Call.rcl_wait :: b ∧ ∀ y ∈ b, y.isWaitSetUse = false) ∧
    (waitSetStatus pre = WaitSetStatus.released →
      ∃ a b c, pre = a ++ Call.rcl_wait :: (b ++ Call.rcl_wait_set_fini :: c) ∧
        (∀ y ∈ b, y.isWaitSetUse = false) ∧ (∀ y ∈ c, y.isWaitSetUse = false)) := by
  induction pre using List.reverseRecOn with
  | nil => simp [waitSetStatus]
  | append_singleton p x ih =>
    obtain ⟨ihw, ihr⟩ := ih
    have hst : waitSetStatus (p ++ [x]) = (waitSetStatus p).next x := by
      simp [waitSetStatus, List.foldl_append]
    rw [hst]
    by_cases hw : x = Call.rcl_wait
    · subst hw
      refine ⟨fun _ => ⟨p, [], by simp, by simp⟩, ?_⟩
      intro h
      simp [WaitSetStatus.next] at h
    by_cases hu : x.isWaitSetUse = true
    · rw [next_use _ x hw hu]
      exact ⟨fun h => (by cases h), fun h => (by cases h)⟩
    have hu' : x.isWaitSetUse = false := by simpa using hu
    by_cases hf : x = Call.rcl_wait_set_fini
    · subst hf
      refine ⟨?_, ?_⟩
      · intro h
        cases hp : waitSetStatus p <;> rw [hp] at h <;> simp [WaitSetStatus.next] at h
      · intro h
        cases hp : waitSetStatus p
        · rw [hp] at h; simp [WaitSetStatus.next] at h
        · obtain ⟨a, b, e, hb⟩ := ihw hp
          exact ⟨a, b, [], by simp [e], hb, by simp⟩
        · obtain ⟨a, b, c, e, hb, hc⟩ := ihr hp
          refine ⟨a, b, c ++ [Call.rcl_wait_set_fini], by simp [e], hb, ?_⟩
          intro y hy
          rcases List.mem_append.1 hy with hy | hy
          · exact hc y hy
          · simp at hy; subst hy; rfl
    · rw [next_neutral _ x hu' hf]
      refine ⟨?_, ?_⟩
      · intro h
        obtain ⟨a, b, e, hb⟩ := ihw h
        refine ⟨a, b ++ [x], by simp [e], ?_⟩
        intro y hy
        rcases List.mem_append.1 hy with hy | hy
        · exact hb y hy
        · simp at hy; subst hy; exact hu'
      · intro h
        obtain ⟨a, b, c, e, hb, hc⟩ := ihr h
        refine ⟨a, b, c ++ [x], by simp [e], hb, ?_⟩
        intro y hy
        rcases List.mem_append.1 hy with hy | hy
        · exact hc y hy
        · simp at hy; subst hy; exact hu'

theorem waitPhase_fatal (N : Native) (s : RosThread)
    (h : N.rcl_wait s.trace s.wait_set = N.RCL_RET_ERROR ∨
      N.rcl_wait s.trace s.wait_set = N.RCL_RET_INVALID_ARGUMENT) :
    waitPhase N s =
      { s with trace := s.trace ++ [Call.rcl_wait, Call.qFatal Msg.FailedToWait],
               aborted := true } := by
  simp [waitPhase, h, emit, qFatal]

theorem waitPhase_ok (N : Native) (s : RosThread)
    (h1 : N.rcl_wait s.trace s.wait_set ≠ N.RCL_RET_ERROR)
    (h2 : N.rcl_wait s.trace s.wait_set ≠ N.RCL_RET_INVALID_ARGUMENT) :
    waitPhase N s =
      { s with trace := s.trace ++ [Call.rcl_wait, Call.rcl_reset_error],
               pc := Pc.releaseWaitSet } := by
  simp [waitPhase, h1, h2, emit]

theorem releaseWaitSet_ok (N : Native) (s : RosThread)
    (h : N.rcl_wait_set_fini s.trace s.wait_set = N.RCL_RET_OK) :
    releaseWaitSet N s =
      { s with trace := s.trace ++ [Call.rcl_wait_set_fini], pc := Pc.finalizeQueues } := by
  simp [releaseWaitSet, h, emit]

theorem releaseWaitSet_fail (N : Native) (s : RosThread)
    (h : N.rcl_wait_set_fini s.trace s.wait_set ≠ N.RCL_RET_OK) :
    releaseWaitSet N s =
      { s with trace := s.trace ++
                 [Call.rcl_wait_set_fini, Call.qFatal Msg.FailedToFinalizeWaitSet],
               aborted := true } := by
  simp [releaseWaitSet, h, emit, qFatal]

theorem inv_extend (s t : RosThread) (es : List Call) (hI : Inv s)
    (htr : t.trace = s.trace ++ es)
    (hf : finiWhenReleased (waitSetStatus s.trace) es)
    (hpc : t.aborted = false →
      (t.pc = Pc.releaseWaitSet →
        es.foldl WaitSetStatus.next (waitSetStatus s.trace) = WaitSetStatus.waited) ∧
      (t.pc = Pc.finalizeQueues →
        es.foldl WaitSetStatus.next (waitSetStatus s.trace) = WaitSetStatus.released)) :
    Inv t := by
  have hst : waitSetStatus t.trace = es.foldl WaitSetStatus.next (waitSetStatus s.trace) := by
    rw [htr]; simp [waitSetStatus, List.foldl_append]
  refine ⟨?_, ?_⟩
  · rw [htr, finiWhenReleased_append]
    exact ⟨hI.1, hf⟩
  · intro ha
    rw [hst]
    exact hpc ha

theorem isBuildCall_not_fini (N : Native) (x : Call) (h : Call.isBuildCall N x) :
    x.isFini = false := by
  rcases h with h | ⟨_, h, _⟩ | ⟨_, h, _⟩ | ⟨_, h⟩ <;> subst h <;> rfl

theorem inv_wakeUpLoop (N : Native) (s mid : RosThread) (hI : Inv s)
    (h1 : mid.trace = s.trace) (h2 : mid.pc = s.pc) (h3 : mid.aborted = s.aborted) :
    Inv (wakeUpLoop N mid) := by
  have hn := wakeCalls_neutral N mid.trace
  apply inv_extend s _ (wakeCalls N mid.trace) hI
  · rw [wakeUpLoop_eq, h1]
  · exact finiWhenReleased_of_no_fini _ _ (fun x hx => (hn x hx).1)
  · intro ha
    rw [foldl_next_neutral _ _ (fun x hx => (hn x hx).2)]
    have ha' : s.aborted = false := by
      rw [wakeUpLoop_eq] at ha; simpa [h3] using ha
    have hp : (wakeUpLoop N mid).pc = s.pc := by rw [wakeUpLoop_eq]; exact h2
    rw [hp]
    exact hI.2 ha'

theorem inv_step (N : Native) (s : RosThread) (hI : Inv s) : Inv (step N s) := by
  unfold step
  cases ha : s.aborted
  swap
  · simpa using hI
  simp only [Bool.false_eq_true, if_false]
  cases hp : s.pc
  · -- handleSubscribers
    simp only []
    rw [handleSubscribers_eq]
    apply inv_extend s _ (s.m_subscribers.map Call.tryHandleMessage) hI rfl
    · apply finiWhenReleased_of_no_fini
      intro x hx
      obtain ⟨_, _, rfl⟩ := List.mem_map.1 hx
      rfl
    · intro _
      exact ⟨fun h => (by cases h), fun h => (by cases h)⟩
  · -- handleClients
    simp only []
    rw [handleClients_eq]
    apply inv_extend s _ (s.m_clients.map Call.tryHandleAnswer) hI rfl
    · apply finiWhenReleased_of_no_fini
      intro x hx
      obtain ⟨_, _, rfl⟩ := List.mem_map.1 hx
      rfl
    · intro _
      exact ⟨fun h => (by cases h), fun h => (by cases h)⟩
  · -- buildWaitSet
    simp only []
    obtain ⟨es, hi, hb⟩ := buildWaitSet_issues N s
    apply inv_extend s _ _ hI hi.1
    · apply finiWhenReleased_of_no_fini
      intro x hx
      rcases List.mem_cons.1 hx with hx | hx
      · subst hx; rfl
      · exact isBuildCall_not_fini N x (hb.1 x hx)
    · intro hab
      have := (buildWaitSet_result N s hab).2
      rw [this]
      exact ⟨fun h => (by cases h), fun h => (by cases h)⟩
  · -- wait
    simp only []
    by_cases hw : N.rcl_wait s.trace s.wait_set = N.RCL_RET_ERROR ∨
      N.rcl_wait s.trace s.wait_set = N.RCL_RET_INVALID_ARGUMENT
    · rw [waitPhase_fatal N s hw]
      apply inv_extend s _ [Call.rcl_wait, Call.qFatal Msg.FailedToWait] hI rfl
      · apply finiWhenReleased_of_no_fini
        intro x hx
        simp at hx
        rcases hx with hx | hx <;> subst hx <;> rfl
      · intro h; simp at h
    · have h1 : N.rcl_wait s.trace s.wait_set ≠ N.RCL_RET_ERROR := fun h => hw (Or.inl h)
      have h2 : N.rcl_wait s.trace s.wait_set ≠ N.RCL_RET_INVALID_ARGUMENT :=
        fun h => hw (Or.inr h)
      rw [waitPhase_ok N s h1 h2]
      apply inv_extend s _ [Call.rcl_wait, Call.rcl_reset_error] hI rfl
      · apply finiWhenReleased_of_no_fini
        intro x hx
        simp at hx
        rcases hx with hx | hx <;> subst hx <;> rfl
      · intro _
        exact ⟨fun _ => rfl, fun h => (by cases h)⟩
  · -- releaseWaitSet
    simp only []
    have hst := (hI.2 ha).1 hp
    by_cases hr : N.rcl_wait_set_fini s.trace s.wait_set = N.RCL_RET_OK
    · rw [releaseWaitSet_ok N s hr]
      apply inv_extend s _ [Call.rcl_wait_set_fini] hI rfl
      · apply finiWhenReleased_of_no_fini
        intro x hx
        simp at hx
        subst hx; rfl
      · intro _
        rw [hst]
        exact ⟨fun h => (by cases h), fun _ => rfl⟩
    · rw [releaseWaitSet_fail N s hr]
      apply inv_extend s _ [Call.rcl_wait_set_fini, Call.qFatal Msg.FailedToFinalizeWaitSet]
        hI rfl
      · apply finiWhenReleased_of_no_fini
        intro x hx
        simp at hx
        rcases hx with hx | hx <;> subst hx <;> rfl
      · intro h; simp at h
  · -- finalizeQueues
    simp only []
    have hst := (hI.2 ha).2 hp
    obtain ⟨bs, bc, hbs, hbc, heq, ans1, ans2⟩ := finalizeQueues_shape N s
    have hs := (finiBlocks_calls Call.rcl_subscription_fini Msg.FailedToFinalizeSubscription
      (fun _ => rfl) _ _ hbs).2
    have hc := (finiBlocks_calls Call.rcl_client_fini Msg.FailedToFinalizeClient
      (fun _ => rfl) _ _ hbc).2
    have huse : ∀ x ∈ bs.flatten ++ bc.flatten, x.isWaitSetUse = false := by
      intro x hx
      have : x.isFini = true ∨ (∃ m, x = Call.qWarning m) ∨ x = Call.rcl_reset_error := by
        rcases List.mem_append.1 hx with hx | hx
        · rcases hs x hx with h | h | h
          · exact Or.inl h
          · exact Or.inr (Or.inl ⟨_, h⟩)
          · exact Or.inr (Or.inr h)
        · rcases hc x hx with h | h | h
          · exact Or.inl h
          · exact Or.inr (Or.inl ⟨_, h⟩)
          · exact Or.inr (Or.inr h)
      rcases this with h | ⟨_, h⟩ | h
      · cases x <;> simp_all [Call.isFini, Call.isWaitSetUse]
      · subst h; rfl
      · subst h; rfl
    rw [heq]
    apply inv_extend s _ (bs.flatten ++ bc.flatten) hI rfl
    · rw [hst]; exact finiWhenReleased_released _ huse
    · intro _
      exact ⟨fun h => (by cases h), fun h => (by cases h)⟩

theorem inv_exec1 (N : Native) (op : Op) (s : RosThread) (hI : Inv s) :
    Inv (exec1 N op s) := by
  unfold exec1
  cases ha : s.aborted
  swap
  · simpa using hI
  simp only [Bool.false_eq_true, if_false]
  cases op with
  | loopStep => exact inv_step N s hI
  | registerClient c => exact inv_wakeUpLoop N s _ hI rfl rfl rfl
  | unregisterClient c => exact inv_wakeUpLoop N s _ hI rfl rfl rfl
  | registerSubscriber e => exact inv_wakeUpLoop N s _ hI rfl rfl rfl
  | unregisterSubscriber e => exact inv_wakeUpLoop N s _ hI rfl rfl rfl
  | finalizeSubscription e => exact inv_wakeUpLoop N s _ hI rfl rfl rfl
  | finalizeClient e => exact inv_wakeUpLoop N s _ hI rfl rfl rfl

theorem inv_exec (sched : List (Native × Op)) (s : RosThread) (hI : Inv s) :
    Inv (exec sched s) := by
  induction sched generalizing s with
  | nil => exact hI
  | cons a rest ih =>
    obtain ⟨N, op⟩ := a
    exact ih _ (inv_exec1 N op s hI)

/-- C2: in every run of the event loop, from the head of the loop and under any
interleaving with the operations of other threads and any native answers, each
native finalize call comes after a `rcl_wait` that has returned and after the
`rcl_wait_set_fini` that released its wait set, and no call that builds a wait
set or waits on one lies between that wait and the finalize call. -/
theorem fini_only_after_wait_and_release (sched : List (Native × Op)) (s : RosThread)
    (hpc : s.pc = Pc.handleSubscribers) (htr : s.trace = [])
    (pre post : List Call) (x : Call)
    (hsplit : (exec sched s).trace = pre ++ x :: post) (hx : x.isFini = true) :
    ∃ a b c, pre = a ++ Call.rcl_wait :: (b ++ Call.rcl_wait_set_fini :: c) ∧
      (∀ y ∈ b, y.isWaitSetUse = false) ∧ (∀ y ∈ c, y.isWaitSetUse = false) := by
  have h0 : Inv s := by
    refine ⟨by rw [htr]; trivial, fun _ => ⟨?_, ?_⟩⟩
    · intro h; rw [hpc] at h; cases h
    · intro h; rw [hpc] at h; cases h
  have hI := inv_exec sched s h0
  have h1 := hI.1
  rw [hsplit] at h1
  exact (waitSetStatus_decomp pre).2 (finiWhenReleased_split _ pre post x h1 hx)


theorem addSubscriptions_valid_ok (N : Native)
    (hN : ∀ tr ws sub, N.rcl_subscription_is_valid sub = true →
      N.rcl_wait_set_add_subscription tr ws sub = N.RCL_RET_OK)
    (l : List SubscriberPtr) (s : RosThread) :
    (addSubscriptions N l s).aborted = s.aborted := by
  induction l generalizing s with
  | nil => simp [addSubscriptions]
  | cons a l ih =>
    by_cases hv : N.rcl_subscription_is_valid a = true
    · have hr := hN s.trace s.wait_set a hv
      simp only [addSubscriptions, hv, hr, emit]
      simp only [ne_eq, not_true_eq_false, ↓reduceIte]
      rw [ih]
    · simp only [addSubscriptions, hv]
      exact ih s

theorem addClients_valid_ok (N : Native)
    (hN : ∀ tr ws cl, N.rcl_client_is_valid cl = true →
      N.rcl_wait_set_add_client tr ws cl = N.RCL_RET_OK)
    (l : List ServiceClientPtr) (s : RosThread) :
    (addClients N l s).aborted = s.aborted := by
  induction l generalizing s with
  | nil => simp [addClients]
  | cons a l ih =>
    by_cases hv : N.rcl_client_is_valid a = true
    · have hr := hN s.trace s.wait_set a hv
      simp only [addClients, hv, hr, emit]
      simp only [ne_eq, not_true_eq_false, ↓reduceIte]
      rw [ih]
    · simp only [addClients, hv]
      exact ih s

/-- A build phase whose native calls succeed on the wake signal and on the
valid entities does not abort, whatever entities are invalid. -/
theorem buildWaitSet_valid_ok (N : Native) (s : RosThread) (hs : s.aborted = false)
    (hi : N.rcl_wait_set_init s.trace s.m_subscribers.length 1 0 s.m_clients.length 0
      = N.RCL_RET_OK)
    (hg : ∀ tr ws, N.rcl_wait_set_add_guard_condition tr ws = N.RCL_RET_OK)
    (hsub : ∀ tr ws sub, N.rcl_subscription_is_valid sub = true →
      N.rcl_wait_set_add_subscription tr ws sub = N.RCL_RET_OK)
    (hcl : ∀ tr ws cl, N.rcl_client_is_valid cl = true →
      N.rcl_wait_set_add_client tr ws cl = N.RCL_RET_OK) :
    (buildWaitSet N s).aborted = false := by
  obtain ⟨b1, _⟩ := waitSetInit_ok_facts N s hi
  have a1 := b1.trans hs
  obtain ⟨b2, _⟩ := addGuardCondition_ok_facts N (waitSetInit N s) (hg _ _)
  have a2 := b2.trans a1
  have a3 := (addSubscriptions_valid_ok N hsub
    (addGuardCondition N (waitSetInit N s)).m_subscribers
    (addGuardCondition N (waitSetInit N s))).trans a2
  have a4 := (addClients_valid_ok N hcl
    (addSubscriptions N (addGuardCondition N (waitSetInit N s)).m_subscribers
      (addGuardCondition N (waitSetInit N s))).m_clients
    (addSubscriptions N (addGuardCondition N (waitSetInit N s)).m_subscribers
      (addGuardCondition N (waitSetInit N s)))).trans a3
  rw [buildWaitSet_eq N s a1 a2 a3 a4]
  exact a4

/-- C7: the wait set that a build phase hands to the wait holds the wake signal
and exactly the active subscribers and clients that are valid, in active-set
order; the native add is called for valid entities only; and when the native
calls succeed on the wake signal and on the valid entities, the phase does not
abort, whatever entities are invalid. -/
theorem wait_set_holds_valid_entities (N : Native) (s : RosThread) :
    ((buildWaitSet N s).aborted = false →
      (buildWaitSet N s).wait_set.guard_conditions = [GuardCondition.m_wake_up_loop] ∧
      (buildWaitSet N s).wait_set.subscriptions
        = s.m_subscribers.filter N.rcl_subscription_is_valid ∧
      (buildWaitSet N s).wait_set.clients = s.m_clients.filter N.rcl_client_is_valid ∧
      (buildWaitSet N s).pc = Pc.wait) ∧
    (∃ es, (buildWaitSet N s).trace = s.trace ++ es ∧
      (∀ sub, Call.rcl_wait_set_add_subscription sub ∈ es →
        N.rcl_subscription_is_valid sub = true) ∧
      (∀ cl, Call.rcl_wait_set_add_client cl ∈ es → N.rcl_client_is_valid cl = true)) ∧
    (s.aborted = false →
      N.rcl_wait_set_init s.trace s.m_subscribers.length 1 0 s.m_clients.length 0
        = N.RCL_RET_OK →
      (∀ tr ws, N.rcl_wait_set_add_guard_condition tr ws = N.RCL_RET_OK) →
      (∀ tr ws sub, N.rcl_subscription_is_valid sub = true →
        N.rcl_wait_set_add_subscription tr ws sub = N.RCL_RET_OK) →
      (∀ tr ws cl, N.rcl_client_is_valid cl = true →
        N.rcl_wait_set_add_client tr ws cl = N.RCL_RET_OK) →
      (buildWaitSet N s).aborted = false) := by
  refine ⟨?_, ?_, fun hs hi hg hsub hcl => buildWaitSet_valid_ok N s hs hi hg hsub hcl⟩
  · intro h
    obtain ⟨hw, hp⟩ := buildWaitSet_result N s h
    rw [hw]
    exact ⟨rfl, rfl, rfl, hp⟩
  · obtain ⟨es, hi, hb⟩ := buildWaitSet_issues N s
    refine ⟨_, hi.1, ?_, ?_⟩
    · intro sub hmem
      rcases List.mem_cons.1 hmem with h | h
      · cases h
      · rcases hb.1 _ h with h | ⟨sub2, h, hv⟩ | ⟨_, h, _⟩ | ⟨_, h⟩
        · cases h
        · cases h; exact hv
        · cases h
        · cases h
    · intro cl hmem
      rcases List.mem_cons.1 hmem with h | h
      · cases h
      · rcases hb.1 _ h with h | ⟨_, h, _⟩ | ⟨cl2, h, hv⟩ | ⟨_, h⟩
        · cases h
        · cases h
        · cases h; exact hv
        · cases h

/-- C10: the wait set is initialised with as many subscription slots as there
are active subscribers, one guard-condition slot and as many client slots as
there are active clients; the build phase then adds at most that many of each
kind; and when the native add functions fail only on a full wait set, the
phase does not abort. -/
theorem wait_set_capacity_suffices (N : Native) (s : RosThread) :
    (∃ es, (buildWaitSet N s).trace =
        s.trace ++ Call.rcl_wait_set_init s.m_subscribers.length 1 0 s.m_clients.length 0 :: es ∧
      es.count Call.rcl_wait_set_add_guard_condition ≤ 1 ∧
      es.countP Call.isAddSubscription ≤ s.m_subscribers.length ∧
      es.countP Call.isAddClient ≤ s.m_clients.length) ∧
    ((buildWaitSet N s).aborted = false →
      (buildWaitSet N s).wait_set.size_of_subscriptions = s.m_subscribers.length ∧
      (buildWaitSet N s).wait_set.size_of_guard_conditions = 1 ∧
      (buildWaitSet N s).wait_set.size_of_clients = s.m_clients.length ∧
      (buildWaitSet N s).wait_set.subscriptions.length
        ≤ (buildWaitSet N s).wait_set.size_of_subscriptions ∧
      (buildWaitSet N s).wait_set.guard_conditions.length
        ≤ (buildWaitSet N s).wait_set.size_of_guard_conditions ∧
      (buildWaitSet N s).wait_set.clients.length
        ≤ (buildWaitSet N s).wait_set.size_of_clients) ∧
    (N.AddFailsOnlyWhenFull →
      N.rcl_wait_set_init s.trace s.m_subscribers.length 1 0 s.m_clients.length 0
        = N.RCL_RET_OK →
      s.aborted = false → (buildWaitSet N s).aborted = false) := by
  refine ⟨?_, ?_, fun hN hi hs => buildWaitSet_room N s hN hi hs⟩
  · obtain ⟨es, hi, hb⟩ := buildWaitSet_issues N s
    exact ⟨es, hi.1, hb.2.1, hb.2.2.1, hb.2.2.2⟩
  · intro h
    rw [(buildWaitSet_result N s h).1]
    refine ⟨rfl, rfl, rfl, ?_, ?_, ?_⟩
    · exact List.length_filter_le _ _
    · simp
    · exact List.length_filter_le _ _

theorem step_wait (N : Native) (s : RosThread) (ha : s.aborted = false) (hp : s.pc = Pc.wait) :
    step N s = waitPhase N s := by
  simp [step, ha, hp]

theorem step_releaseWaitSet (N : Native) (s : RosThread) (ha : s.aborted = false)
    (hp : s.pc = Pc.releaseWaitSet) : step N s = releaseWaitSet N s := by
  simp [step, ha, hp]

theorem step_finalizeQueues (N : Native) (s : RosThread) (ha : s.aborted = false)
    (hp : s.pc = Pc.finalizeQueues) : step N s = finalizeQueues N s := by
  simp [step, ha, hp]

/-- The finalize phase, as the loop thread runs it. -/
theorem step_finalizeQueues_calls (N : Native) (s : RosThread) (ha : s.aborted = false)
    (hp : s.pc = Pc.finalizeQueues) :
    ∃ bs bc,
      List.Forall₂ (fun e b =>
        FiniBlock (Call.rcl_subscription_fini e) Msg.FailedToFinalizeSubscription b)
        s.m_subscriptionsToFinalize bs ∧
      List.Forall₂ (fun e b =>
        FiniBlock (Call.rcl_client_fini e) Msg.FailedToFinalizeClient b)
        s.m_clientsToFinalize bc ∧
      (step N s).trace = s.trace ++ (bs.flatten ++ bc.flatten) ∧
      (bs.flatten ++ bc.flatten).filter Call.isFini =
        s.m_subscriptionsToFinalize.map Call.rcl_subscription_fini ++
          s.m_clientsToFinalize.map Call.rcl_client_fini ∧
      (∀ m, Call.qFatal m ∉ bs.flatten ++ bc.flatten) ∧
      (step N s).aborted = false ∧ (step N s).pc = Pc.handleSubscribers ∧
      AnsweredBlocks N.rcl_subscription_fini N.RCL_RET_OK Call.rcl_subscription_fini
        Msg.FailedToFinalizeSubscription s.trace s.m_subscriptionsToFinalize bs ∧
      AnsweredBlocks N.rcl_client_fini N.RCL_RET_OK Call.rcl_client_fini
        Msg.FailedToFinalizeClient (s.trace ++ bs.flatten) s.m_clientsToFinalize bc := by
  obtain ⟨bs, bc, hbs, hbc, heq, ans1, ans2⟩ := finalizeQueues_shape N s
  have hs := finiBlocks_calls Call.rcl_subscription_fini Msg.FailedToFinalizeSubscription
    (fun _ => rfl) _ _ hbs
  have hc := finiBlocks_calls Call.rcl_client_fini Msg.FailedToFinalizeClient
    (fun _ => rfl) _ _ hbc
  refine ⟨bs, bc, hbs, hbc, ?_, ?_, ?_, ?_, ?_, ans1, ans2⟩
  · rw [step_finalizeQueues N s ha hp, heq]
  · rw [List.filter_append, hs.1, hc.1]
  · intro m hm
    rcases List.mem_append.1 hm with hm | hm
    · rcases hs.2 _ hm with h | h | h
      · cases h
      · cases h
      · cases h
    · rcases hc.2 _ hm with h | h | h
      · cases h
      · cases h
      · cases h
  · rw [step_finalizeQueues N s ha hp, heq]; exact ha
  · rw [step_finalizeQueues N s ha hp, heq]

/-- C9: whatever the two pending queues hold and whichever native finalize calls
fail, the finalize phase of an iteration issues one block of calls per queued
subscription and then one per queued client, in queue order.  The block of an
entity is its finalize call alone when that call returned `RCL_RET_OK`, and its
finalize call followed by a warning and a reset of the error state when it
returned anything else (`AnsweredBlocks`); the blocks of the entities queued
after a failing one follow all the same; nothing is fatal and the loop returns
to its head. -/
theorem finalize_phase_attempts_every_entity (N : Native) (s : RosThread)
    (ha : s.aborted = false) (hp : s.pc = Pc.finalizeQueues) :
    ∃ bs bc,
      List.Forall₂ (fun e b =>
        FiniBlock (Call.rcl_subscription_fini e) Msg.FailedToFinalizeSubscription b)
        s.m_subscriptionsToFinalize bs ∧
      List.Forall₂ (fun e b =>
        FiniBlock (Call.rcl_client_fini e) Msg.FailedToFinalizeClient b)
        s.m_clientsToFinalize bc ∧
      (step N s).trace = s.trace ++ (bs.flatten ++ bc.flatten) ∧
      (bs.flatten ++ bc.flatten).filter Call.isFini =
        s.m_subscriptionsToFinalize.map Call.rcl_subscription_fini ++
          s.m_clientsToFinalize.map Call.rcl_client_fini ∧
      (∀ m, Call.qFatal m ∉ bs.flatten ++ bc.flatten) ∧
      (step N s).aborted = false ∧ (step N s).pc = Pc.handleSubscribers ∧
      AnsweredBlocks N.rcl_subscription_fini N.RCL_RET_OK Call.rcl_subscription_fini
        Msg.FailedToFinalizeSubscription s.trace s.m_subscriptionsToFinalize bs ∧
      AnsweredBlocks N.rcl_client_fini N.RCL_RET_OK Call.rcl_client_fini
        Msg.FailedToFinalizeClient (s.trace ++ bs.flatten) s.m_clientsToFinalize bc :=
  step_finalizeQueues_calls N s ha hp

/-- C8, as amended: the wait phase aborts exactly on the return codes
`RCL_RET_ERROR` and `RCL_RET_INVALID_ARGUMENT`.  On every other return code the
wait does not abort: the error state is reset and the next phase issues
`rcl_wait_set_fini`.  When that call succeeds, the finalize phase issues the
finalize call of every queued entity and the loop is back at its head, not
aborted; when it fails, the process is aborted. -/
theorem wait_error_codes (N : Native) (s : RosThread)
    (ha : s.aborted = false) (hp : s.pc = Pc.wait) :
    ((step N s).aborted = true ↔
      (N.rcl_wait s.trace s.wait_set = N.RCL_RET_ERROR ∨
        N.rcl_wait s.trace s.wait_set = N.RCL_RET_INVALID_ARGUMENT)) ∧
    (N.rcl_wait s.trace s.wait_set ≠ N.RCL_RET_ERROR →
      N.rcl_wait s.trace s.wait_set ≠ N.RCL_RET_INVALID_ARGUMENT →
      (step N s).trace = s.trace ++ [Call.rcl_wait, Call.rcl_reset_error] ∧
      (step N s).pc = Pc.releaseWaitSet ∧
      (∃ es, (step N (step N s)).trace = (step N s).trace ++ Call.rcl_wait_set_fini :: es ∧
        (es = [] ∨ es = [Call.qFatal Msg.FailedToFinalizeWaitSet])) ∧
      (N.rcl_wait_set_fini (step N s).trace (step N s).wait_set = N.RCL_RET_OK →
        (step N (step N s)).aborted = false ∧
        (step N (step N s)).pc = Pc.finalizeQueues ∧
        (step N (step N (step N s))).aborted = false ∧
        (step N (step N (step N s))).pc = Pc.handleSubscribers ∧
        ∃ es, (step N (step N (step N s))).trace = (step N (step N s)).trace ++ es ∧
          es.filter Call.isFini =
            s.m_subscriptionsToFinalize.map Call.rcl_subscription_fini ++
              s.m_clientsToFinalize.map Call.rcl_client_fini) ∧
      (N.rcl_wait_set_fini (step N s).trace (step N s).wait_set ≠ N.RCL_RET_OK →
        (step N (step N s)).aborted = true ∧
        (step N (step N s)).trace = (step N s).trace ++
          [Call.rcl_wait_set_fini, Call.qFatal Msg.FailedToFinalizeWaitSet])) := by
  rw [step_wait N s ha hp]
  refine ⟨?_, ?_⟩
  · by_cases hw : N.rcl_wait s.trace s.wait_set = N.RCL_RET_ERROR ∨
      N.rcl_wait s.trace s.wait_set = N.RCL_RET_INVALID_ARGUMENT
    · rw [waitPhase_fatal N s hw]
      simp [hw]
    · have h1 : N.rcl_wait s.trace s.wait_set ≠ N.RCL_RET_ERROR := fun h => hw (Or.inl h)
      have h2 : N.rcl_wait s.trace s.wait_set ≠ N.RCL_RET_INVALID_ARGUMENT :=
        fun h => hw (Or.inr h)
      rw [waitPhase_ok N s h1 h2]
      simp [hw, ha]
  · intro h1 h2
    have e1 := waitPhase_ok N s h1 h2
    have a1 : (waitPhase N s).aborted = false := by rw [e1]; exact ha
    have p1 : (waitPhase N s).pc = Pc.releaseWaitSet := by rw [e1]
    refine ⟨by rw [e1], p1, ?_, ?_, ?_⟩
    · rw [step_releaseWaitSet N _ a1 p1]
      by_cases hr : N.rcl_wait_set_fini (waitPhase N s).trace (waitPhase N s).wait_set
          = N.RCL_RET_OK
      · exact ⟨[], by rw [releaseWaitSet_ok N _ hr], Or.inl rfl⟩
      · exact ⟨[Call.qFatal Msg.FailedToFinalizeWaitSet],
          by rw [releaseWaitSet_fail N _ hr], Or.inr rfl⟩
    · intro hr
      rw [step_releaseWaitSet N _ a1 p1]
      have e2 := releaseWaitSet_ok N _ hr
      have a2 : (releaseWaitSet N (waitPhase N s)).aborted = false := by rw [e2]; exact a1
      have p2 : (releaseWaitSet N (waitPhase N s)).pc = Pc.finalizeQueues := by rw [e2]
      have q1 : (releaseWaitSet N (waitPhase N s)).m_subscriptionsToFinalize
          = s.m_subscriptionsToFinalize := by rw [e2, e1]
      have q2 : (releaseWaitSet N (waitPhase N s)).m_clientsToFinalize
          = s.m_clientsToFinalize := by rw [e2, e1]
      obtain ⟨bs, bc, _, _, h3, h4, _, h6, h7, _, _⟩ := step_finalizeQueues_calls N _ a2 p2
      rw [q1, q2] at h4
      exact ⟨a2, p2, h6, h7, _, h3, h4⟩
    · intro hr
      rw [step_releaseWaitSet N _ a1 p1, releaseWaitSet_fail N _ hr]
      exact ⟨rfl, rfl⟩


theorem step_keeps_queues (N : Native) (s : RosThread) :
    (step N s).m_subscriptionsToFinalize = s.m_subscriptionsToFinalize ∧
    (step N s).m_clientsToFinalize = s.m_clientsToFinalize := by
  unfold step
  cases ha : s.aborted
  swap
  · simp
  simp only [Bool.false_eq_true, if_false]
  cases hp : s.pc
  · simp [handleSubscribers_eq]
  · simp [handleClients_eq]
  · obtain ⟨es, hi, _⟩ := buildWaitSet_issues N s
    exact ⟨hi.2.2.2.1, hi.2.2.2.2.1⟩
  · simp only [waitPhase, emit, qFatal]
    split <;> simp
  · simp only [releaseWaitSet, emit, qFatal]
    split <;> simp
  · obtain ⟨_, _, _, _, heq, _, _⟩ := finalizeQueues_shape N s
    simp only []
    rw [heq]
    simp

/-- The loop body never removes anything from the two pending queues. -/
theorem loopBody_keeps_queues (N : Native) (s : RosThread) :
    (loopBody N s).m_subscriptionsToFinalize = s.m_subscriptionsToFinalize ∧
    (loopBody N s).m_clientsToFinalize = s.m_clientsToFinalize := by
  unfold loopBody
  constructor
  · rw [(step_keeps_queues N _).1, (step_keeps_queues N _).1, (step_keeps_queues N _).1,
      (step_keeps_queues N _).1, (step_keeps_queues N _).1, (step_keeps_queues N _).1]
  · rw [(step_keeps_queues N _).2, (step_keeps_queues N _).2, (step_keeps_queues N _).2,
      (step_keeps_queues N _).2, (step_keeps_queues N _).2, (step_keeps_queues N _).2]

/-- C1, at a concrete state: a subscription and a client are enqueued once by
`finalize` and every native call succeeds.  One iteration of the loop body
issues their finalize calls but leaves both in their queues, and the second
iteration issues both finalize calls again. -/
theorem loopBody_does_not_drain_queues :
    (loopBody nativeOk
      (finalizeClient nativeOk ⟨8⟩
        (finalizeSubscription nativeOk ⟨7⟩ initial))).m_subscriptionsToFinalize = [⟨7⟩] ∧
    (loopBody nativeOk
      (finalizeClient nativeOk ⟨8⟩
        (finalizeSubscription nativeOk ⟨7⟩ initial))).m_clientsToFinalize = [⟨8⟩] ∧
    (loopBody nativeOk
      (finalizeClient nativeOk ⟨8⟩
        (finalizeSubscription nativeOk ⟨7⟩ initial))).aborted = false ∧
    (loopBody nativeOk (loopBody nativeOk
      (finalizeClient nativeOk ⟨8⟩
        (finalizeSubscription nativeOk ⟨7⟩ initial)))).trace.count
          (Call.rcl_subscription_fini ⟨7⟩) = 2 ∧
    (loopBody nativeOk (loopBody nativeOk
      (finalizeClient nativeOk ⟨8⟩
        (finalizeSubscription nativeOk ⟨7⟩ initial)))).trace.count
          (Call.rcl_client_fini ⟨8⟩) = 2 := by
  decide

/-- C2, at a concrete run: a subscription is enqueued and the loop runs one
iteration; the finalize call comes last, after the wait and the release. -/
theorem fini_only_after_wait_and_release_witness :
    initial.pc = Pc.handleSubscribers ∧ initial.trace = [] ∧
    (exec [(nativeOk, Op.finalizeSubscription ⟨7⟩), (nativeOk, Op.loopStep),
        (nativeOk, Op.loopStep), (nativeOk, Op.loopStep), (nativeOk, Op.loopStep),
        (nativeOk, Op.loopStep), (nativeOk, Op.loopStep)] initial).trace =
      [Call.rcl_trigger_guard_condition, Call.rcl_wait_set_init 0 1 0 0 0,
        Call.rcl_wait_set_add_guard_condition, Call.rcl_wait, Call.rcl_reset_error,
        Call.rcl_wait_set_fini] ++ Call.rcl_subscription_fini ⟨7⟩ :: [] ∧
    (Call.rcl_subscription_fini ⟨7⟩).isFini = true ∧
    ∃ a b c,
      [Call.rcl_trigger_guard_condition, Call.rcl_wait_set_init 0 1 0 0 0,
        Call.rcl_wait_set_add_guard_condition, Call.rcl_wait, Call.rcl_reset_error,
        Call.rcl_wait_set_fini] = a ++ Call.rcl_wait :: (b ++ Call.rcl_wait_set_fini :: c) ∧
      (∀ y ∈ b, y.isWaitSetUse = false) ∧ (∀ y ∈ c, y.isWaitSetUse = false) :=
  ⟨rfl, rfl, by decide, rfl,
    fini_only_after_wait_and_release
      [(nativeOk, Op.finalizeSubscription ⟨7⟩), (nativeOk, Op.loopStep),
        (nativeOk, Op.loopStep), (nativeOk, Op.loopStep), (nativeOk, Op.loopStep),
        (nativeOk, Op.loopStep), (nativeOk, Op.loopStep)]
      initial rfl rfl _ [] (Call.rcl_subscription_fini ⟨7⟩) (by decide) rfl⟩

/-- C5, at a concrete state: the trigger fails while subscriber 3 is registered;
the trigger saw subscriber 3 among the active subscribers. -/
theorem operations_mutate_then_wake_once_witness :
    (registerSubscriber nativeFlaky 3 initial).m_subscribers = [3] ∧
    (registerSubscriber nativeFlaky 3 initial).aborted = false ∧
    (registerSubscriber nativeFlaky 3 initial).wakes =
      [] ++ [{ m_subscribers := [3], m_clients := [], m_subscriptionsToFinalize := [],
               m_clientsToFinalize := [] }] ∧
    (registerSubscriber nativeFlaky 3 initial).trace =
      [Call.rcl_trigger_guard_condition, Call.qWarning Msg.FailedToWakeUpLoop,
        Call.rcl_reset_error] :=
  ⟨(operations_mutate_then_wake_once nativeFlaky initial 3 4 ⟨5⟩ ⟨6⟩).1.2.2.2.2.2.1,
    (operations_mutate_then_wake_once nativeFlaky initial 3 4 ⟨5⟩ ⟨6⟩).1.2.2.2.2.1,
    (operations_mutate_then_wake_once nativeFlaky initial 3 4 ⟨5⟩ ⟨6⟩).1.2.2.2.2.2.2.2.2.2.2,
    by decide⟩

/-- C7, at a concrete state: subscribers 3 (twice) and client 5 are invalid. -/
theorem wait_set_holds_valid_entities_witness :
    (buildWaitSet nativeFlaky
      { initial with m_subscribers := [2, 3, 4, 3], m_clients := [5, 6] }).aborted = false ∧
    (buildWaitSet nativeFlaky
      { initial with m_subscribers := [2, 3, 4, 3], m_clients := [5, 6] }).wait_set.subscriptions
        = [2, 4] ∧
    (buildWaitSet nativeFlaky
      { initial with m_subscribers := [2, 3, 4, 3], m_clients := [5, 6] }).wait_set.clients
        = [6] :=
  have h := (wait_set_holds_valid_entities nativeFlaky
    { initial with m_subscribers := [2, 3, 4, 3], m_clients := [5, 6] }).2.2 rfl rfl
    (fun _ _ => rfl) (fun _ _ _ _ => rfl) (fun _ _ _ _ => rfl)
  ⟨h,
    ((wait_set_holds_valid_entities nativeFlaky
      { initial with m_subscribers := [2, 3, 4, 3], m_clients := [5, 6] }).1 h).2.1,
    ((wait_set_holds_valid_entities nativeFlaky
      { initial with m_subscribers := [2, 3, 4, 3], m_clients := [5, 6] }).1 h).2.2.1⟩

theorem nativeFull_addFailsOnlyWhenFull : nativeFull.AddFailsOnlyWhenFull := by
  refine ⟨?_, ?_, ?_⟩
  · intro tr ws h
    simp [nativeFull, nativeOk, h]
  · intro tr ws sub h
    simp [nativeFull, nativeOk, h]
  · intro tr ws cl h
    simp [nativeFull, nativeOk, h]

/-- C10, at a concrete state: subscriber 5 and client 8 are registered twice,
and the native add fails on a full wait set. -/
theorem wait_set_capacity_suffices_witness :
    nativeFull.AddFailsOnlyWhenFull ∧
    (buildWaitSet nativeFull
      { initial with m_subscribers := [5, 5, 6], m_clients := [8, 8] }).aborted = false ∧
    (buildWaitSet nativeFull
      { initial with m_subscribers := [5, 5, 6], m_clients := [8, 8] }).wait_set.subscriptions
        = [5, 5, 6] :=
  ⟨nativeFull_addFailsOnlyWhenFull,
    (wait_set_capacity_suffices nativeFull
      { initial with m_subscribers := [5, 5, 6], m_clients := [8, 8] }).2.2
      nativeFull_addFailsOnlyWhenFull rfl rfl,
    by decide⟩

/-- C8, at a concrete state: the wait times out (code 2) with one subscription
pending; the iteration goes on to the release and to the finalize call. -/
theorem wait_error_codes_witness :
    (step nativeFlaky
      { initial with pc := Pc.wait, m_subscriptionsToFinalize := [⟨7⟩] }).aborted = false ∧
    (step nativeFlaky
      { initial with pc := Pc.wait, m_subscriptionsToFinalize := [⟨7⟩] }).trace
        = [Call.rcl_wait, Call.rcl_reset_error] ∧
    (step nativeFlaky (step nativeFlaky (step nativeFlaky
      { initial with pc := Pc.wait, m_subscriptionsToFinalize := [⟨7⟩] }))).pc
        = Pc.handleSubscribers :=
  ⟨by decide,
    ((wait_error_codes nativeFlaky
      { initial with pc := Pc.wait, m_subscriptionsToFinalize := [⟨7⟩] } rfl rfl).2
        (by decide) (by decide)).1,
    (((wait_error_codes nativeFlaky
      { initial with pc := Pc.wait, m_subscriptionsToFinalize := [⟨7⟩] } rfl rfl).2
        (by decide) (by decide)).2.2.2.1 rfl).2.2.2.1⟩

/-- C8, counterexample to the claim as stated: the wait returns the non-fatal
code 2 (neither `RCL_RET_ERROR` = 1 nor `RCL_RET_INVALID_ARGUMENT` = 11) and the
error state is reset, but `rcl_wait_set_fini` fails; the iteration aborts the
process, issues no finalize call for the queued subscription and does not
return to the head of the loop. -/
theorem wait_timeout_then_release_failure_aborts :
    nativeReleaseFails.rcl_wait
        [Call.rcl_wait_set_init 0 1 0 0 0, Call.rcl_wait_set_add_guard_condition]
        (buildWaitSet nativeReleaseFails
          { initial with pc := Pc.buildWaitSet,
                         m_subscriptionsToFinalize := [⟨7⟩] }).wait_set = 2 ∧
    nativeReleaseFails.RCL_RET_ERROR = 1 ∧
    nativeReleaseFails.RCL_RET_INVALID_ARGUMENT = 11 ∧
    (loopBody nativeReleaseFails
      { initial with m_subscriptionsToFinalize := [⟨7⟩] }).trace =
      [Call.rcl_wait_set_init 0 1 0 0 0, Call.rcl_wait_set_add_guard_condition,
        Call.rcl_wait, Call.rcl_reset_error, Call.rcl_wait_set_fini,
        Call.qFatal Msg.FailedToFinalizeWaitSet] ∧
    (loopBody nativeReleaseFails
      { initial with m_subscriptionsToFinalize := [⟨7⟩] }).aborted = true ∧
    (loopBody nativeReleaseFails
      { initial with m_subscriptionsToFinalize := [⟨7⟩] }).pc = Pc.releaseWaitSet ∧
    (loopBody nativeReleaseFails
      { initial with m_subscriptionsToFinalize := [⟨7⟩] }).m_subscriptionsToFinalize
        = [⟨7⟩] := by
  decide

/-- C9, at a concrete state: two subscriptions and a client are pending and
every native finalize call fails. -/
theorem finalize_phase_attempts_every_entity_witness :
    (step nativeFlaky
      { initial with pc := Pc.finalizeQueues, m_subscriptionsToFinalize := [⟨1⟩, ⟨2⟩],
                     m_clientsToFinalize := [⟨3⟩] }).trace =
      [Call.rcl_subscription_fini ⟨1⟩, Call.qWarning Msg.FailedToFinalizeSubscription,
        Call.rcl_reset_error,
        Call.rcl_subscription_fini ⟨2⟩, Call.qWarning Msg.FailedToFinalizeSubscription,
        Call.rcl_reset_error,
        Call.rcl_client_fini ⟨3⟩, Call.qWarning Msg.FailedToFinalizeClient,
        Call.rcl_reset_error] ∧
    ∃ bs bc,
      List.Forall₂ (fun e b =>
        FiniBlock (Call.rcl_subscription_fini e) Msg.FailedToFinalizeSubscription b)
        [⟨1⟩, ⟨2⟩] bs ∧
      List.Forall₂ (fun e b =>
        FiniBlock (Call.rcl_client_fini e) Msg.FailedToFinalizeClient b)
        [⟨3⟩] bc ∧
      (step nativeFlaky
        { initial with pc := Pc.finalizeQueues, m_subscriptionsToFinalize := [⟨1⟩, ⟨2⟩],
                       m_clientsToFinalize := [⟨3⟩] }).trace = [] ++ (bs.flatten ++ bc.flatten) ∧
      (bs.flatten ++ bc.flatten).filter Call.isFini =
        [Call.rcl_subscription_fini ⟨1⟩, Call.rcl_subscription_fini ⟨2⟩] ++
          [Call.rcl_client_fini ⟨3⟩] ∧
      (∀ m, Call.qFatal m ∉ bs.flatten ++ bc.flatten) ∧
      (step nativeFlaky
        { initial with pc := Pc.finalizeQueues, m_subscriptionsToFinalize := [⟨1⟩, ⟨2⟩],
                       m_clientsToFinalize := [⟨3⟩] }).aborted = false ∧
      (step nativeFlaky
        { initial with pc := Pc.finalizeQueues, m_subscriptionsToFinalize := [⟨1⟩, ⟨2⟩],
                       m_clientsToFinalize := [⟨3⟩] }).pc = Pc.handleSubscribers ∧
      AnsweredBlocks nativeFlaky.rcl_subscription_fini nativeFlaky.RCL_RET_OK
        Call.rcl_subscription_fini Msg.FailedToFinalizeSubscription [] [⟨1⟩, ⟨2⟩] bs ∧
      AnsweredBlocks nativeFlaky.rcl_client_fini nativeFlaky.RCL_RET_OK
        Call.rcl_client_fini Msg.FailedToFinalizeClient ([] ++ bs.flatten) [⟨3⟩] bc :=
  ⟨by decide,
    finalize_phase_attempts_every_entity nativeFlaky
      { initial with pc := Pc.finalizeQueues, m_subscriptionsToFinalize := [⟨1⟩, ⟨2⟩],
                     m_clientsToFinalize := [⟨3⟩] } rfl rfl⟩

/-! ## Theorems about the message codec -/

theorem encodeLE_length (w n : Nat) : (encodeLE w n).length = w := by
  induction w generalizing n with
  | zero => rfl
  | succ w ih => simp [encodeLE, ih]

theorem decodeLE_encodeLE (w n : Nat) : decodeLE (encodeLE w n) = n % 256 ^ w := by
  induction w generalizing n with
  | zero => simp [encodeLE, decodeLE, Nat.mod_one]
  | succ w ih =>
    simp only [encodeLE, decodeLE, ih]
    rw [pow_succ', Nat.mod_mul]

theorem decodeLE_encodeLE_of_lt (w n : Nat) (h : n < 2 ^ (8 * w)) :
    decodeLE (encodeLE w n) = n := by
  rw [decodeLE_encodeLE]
  apply Nat.mod_eq_of_lt
  have : (256 : Nat) ^ w = 2 ^ (8 * w) := by
    rw [pow_mul]; norm_num
  rw [this]; exact h

theorem readBytes_append (xs rest : List Nat) :
    readBytes xs.length (xs ++ rest) = some (xs, rest) := by
  simp [readBytes]

theorem readBytes_encodeLE (w n : Nat) (rest : List Nat) :
    readBytes w (encodeLE w n ++ rest) = some (encodeLE w n, rest) := by
  have := readBytes_append (encodeLE w n) rest
  rwa [encodeLE_length] at this

theorem fromSigned_lt (w : Nat) (i : Int) : fromSigned w i < 2 ^ (8 * w) := by
  unfold fromSigned
  have hpos : (0 : Int) < (2 : Int) ^ (8 * w) := by positivity
  have h1 := Int.emod_nonneg i (ne_of_gt hpos)
  have h2 := Int.emod_lt_of_pos i hpos
  have : ((i % (2 : Int) ^ (8 * w)).toNat : Int) < ((2 ^ (8 * w) : Nat) : Int) := by
    rw [Int.toNat_of_nonneg h1]
    push_cast
    exact h2
  exact_mod_cast this

theorem toSigned_fromSigned (w : Nat) (i : Int) (hw : 0 < w)
    (h1 : -(2 : Int) ^ (8 * w - 1) ≤ i) (h2 : i < (2 : Int) ^ (8 * w - 1)) :
    toSigned w (fromSigned w i) = i := by
  have hM : (2 : Int) ^ (8 * w) = 2 * (2 : Int) ^ (8 * w - 1) := by
    have : 8 * w = (8 * w - 1) + 1 := by omega
    conv_lhs => rw [this]
    rw [pow_succ]; ring
  have hH : (0 : Int) < (2 : Int) ^ (8 * w - 1) := by positivity
  unfold toSigned fromSigned
  by_cases hi : 0 ≤ i
  · have hmod : i % (2 : Int) ^ (8 * w) = i := Int.emod_eq_of_lt hi (by rw [hM]; omega)
    rw [hmod]
    have hlt : i.toNat < 2 ^ (8 * w - 1) := by
      have : ((i.toNat : Nat) : Int) < ((2 ^ (8 * w - 1) : Nat) : Int) := by
        rw [Int.toNat_of_nonneg hi]; push_cast; exact h2
      exact_mod_cast this
    rw [if_pos hlt, Int.toNat_of_nonneg hi]
  · have hi' : i < 0 := by omega
    have hmod : i % (2 : Int) ^ (8 * w) = i + (2 : Int) ^ (8 * w) := by
      rw [← Int.add_emod_self]
      exact Int.emod_eq_of_lt (by rw [hM]; omega) (by omega)
    rw [hmod]
    have hnn : 0 ≤ i + (2 : Int) ^ (8 * w) := by rw [hM]; omega
    have hge : ¬ (i + (2 : Int) ^ (8 * w)).toNat < 2 ^ (8 * w - 1) := by
      intro hlt
      have : (((i + (2 : Int) ^ (8 * w)).toNat : Nat) : Int) < ((2 ^ (8 * w - 1) : Nat) : Int) := by
        exact_mod_cast hlt
      rw [Int.toNat_of_nonneg hnn] at this
      push_cast at this
      rw [hM] at this
      omega
    rw [if_neg hge, Int.toNat_of_nonneg hnn]
    ring

theorem toSigned_decode_encode (w : Nat) (i : Int) (hw : 0 < w)
    (h1 : -(2 : Int) ^ (8 * w - 1) ≤ i) (h2 : i < (2 : Int) ^ (8 * w - 1)) :
    toSigned w (decodeLE (encodeLE w (fromSigned w i))) = i := by
  rw [decodeLE_encodeLE_of_lt w _ (fromSigned_lt w i)]
  exact toSigned_fromSigned w i hw h1 h2

/-- Decoding what was encoded for a value that fits the shape gives the value
back and leaves the cursor behind the encoded bytes. -/
theorem scalar_roundtrip (sh : Shape) (v : QVariant) (rest : List Nat)
    (h : scalarOk sh v = true) :
    ∃ bs, generateScalar sh v = some bs ∧ parseScalar sh (bs ++ rest) = some (v, rest) := by
  cases sh <;> cases v <;> simp only [scalarOk, Bool.false_eq_true] at h
  case boolean.bool b =>
    refine ⟨_, rfl, ?_⟩
    cases b <;> simp [parseScalar, readBytes, decodeLE]
  case signed.int w i =>
    simp only [Bool.and_eq_true, decide_eq_true_eq] at h
    refine ⟨_, rfl, ?_⟩
    simp only [parseScalar, readBytes_encodeLE]
    rw [toSigned_decode_encode w i h.1.1 h.1.2 h.2]
  case unsigned.uint w n =>
    simp only [decide_eq_true_eq] at h
    refine ⟨_, rfl, ?_⟩
    simp only [parseScalar, readBytes_encodeLE]
    rw [decodeLE_encodeLE_of_lt w n h]
  case floating.float w n =>
    simp only [decide_eq_true_eq] at h
    refine ⟨_, rfl, ?_⟩
    simp only [parseScalar, readBytes_encodeLE]
    rw [decodeLE_encodeLE_of_lt w n h]
  case string.string s =>
    simp only [decide_eq_true_eq] at h
    refine ⟨_, rfl, ?_⟩
    simp only [parseScalar, List.append_assoc, readBytes_encodeLE]
    rw [decodeLE_encodeLE_of_lt 4 s.length (by simpa using h)]
    simp only [readBytes_append]
  case time.time sec nsec =>
    simp only [Bool.and_eq_true, decide_eq_true_eq] at h
    refine ⟨_, rfl, ?_⟩
    simp only [parseScalar, List.append_assoc, readBytes_encodeLE]
    rw [decodeLE_encodeLE_of_lt 4 sec (by simpa using h.1),
      decodeLE_encodeLE_of_lt 4 nsec (by simpa using h.2)]
  case duration.duration sec nsec =>
    simp only [Bool.and_eq_true, decide_eq_true_eq] at h
    refine ⟨_, rfl, ?_⟩
    simp only [parseScalar, List.append_assoc, readBytes_encodeLE]
    rw [toSigned_decode_encode 4 sec (by norm_num) (by simpa using h.1.1.1)
        (by simpa using h.1.1.2),
      toSigned_decode_encode 4 nsec (by norm_num) (by simpa using h.1.2) (by simpa using h.2)]

theorem lookup_of_mem_nodup (entries : QVariantMap) (k : String) (v : QVariant)
    (hn : (entries.map Prod.fst).Nodup) (hm : (k, v) ∈ entries) :
    entries.lookup k = some v := by
  induction entries with
  | nil => cases hm
  | cons e es ih =>
    obtain ⟨k2, v2⟩ := e
    simp only [List.map_cons, List.nodup_cons] at hn
    rcases List.mem_cons.1 hm with h | h
    · cases h
      simp [List.lookup]
    · have hne : k ≠ k2 := by
        intro heq
        subst heq
        exact hn.1 (List.mem_map.2 ⟨(k, v), h, rfl⟩)
      have : (k == k2) = false := by simpa using hne
      simp only [List.lookup, this]
      exact ih hn.2 h

mutual
/-- Round trip of one field. -/
theorem field_roundtrip : ∀ (f : MessageField) (v : QVariant) (rest : List Nat),
    f.accepts v = true →
    ∃ bs, f.generate v = some bs ∧ f.parse (bs ++ rest) = some (v, rest)
  | MessageField.scalar _ m_type, v, rest, h => by
    simp only [MessageField.accepts] at h
    simpa only [MessageField.generate, MessageField.parse] using
      scalar_roundtrip m_type.shape v rest h
  | MessageField.message _ m_fields, QVariant.map entries, rest, h => by
    simp only [MessageField.accepts, Bool.and_eq_true, decide_eq_true_eq] at h
    obtain ⟨bs, h1, h2⟩ := fields_roundtrip m_fields entries entries rest h.1
      (fun k v hm => lookup_of_mem_nodup entries k v h.2 hm)
    refine ⟨bs, ?_, ?_⟩
    · simpa only [MessageField.generate] using h1
    · simp only [MessageField.parse, h2]
  | MessageField.message _ _, QVariant.bool _, _, h => by simp [MessageField.accepts] at h
  | MessageField.message _ _, QVariant.int _, _, h => by simp [MessageField.accepts] at h
  | MessageField.message _ _, QVariant.uint _, _, h => by simp [MessageField.accepts] at h
  | MessageField.message _ _, QVariant.float _, _, h => by simp [MessageField.accepts] at h
  | MessageField.message _ _, QVariant.string _, _, h => by simp [MessageField.accepts] at h
  | MessageField.message _ _, QVariant.time _ _, _, h => by simp [MessageField.accepts] at h
  | MessageField.message _ _, QVariant.duration _ _, _, h => by
    simp [MessageField.accepts] at h
/-- Round trip of a field sequence whose values are looked up in `whole`. -/
theorem fields_roundtrip : ∀ (fs : List MessageField) (vs whole : QVariantMap)
    (rest : List Nat), conformsSeq fs vs = true →
    (∀ k v, (k, v) ∈ vs → whole.lookup k = some v) →
    ∃ bs, generateFields fs whole = some bs ∧ parseFields fs (bs ++ rest) = some (vs, rest)
  | [], [], _, rest, _, _ => ⟨[], by simp [generateFields], by simp [parseFields]⟩
  | [], _ :: _, _, _, h, _ => by simp [conformsSeq] at h
  | _ :: _, [], _, _, h, _ => by simp [conformsSeq] at h
  | f :: fs, (k, v) :: vs, whole, rest, h, hl => by
    simp only [conformsSeq, Bool.and_eq_true, decide_eq_true_eq] at h
    obtain ⟨⟨hk, hf⟩, hrest⟩ := h
    obtain ⟨bs2, g2, p2⟩ := fields_roundtrip fs vs whole rest hrest
      (fun k2 v2 hm => hl k2 v2 (List.mem_cons_of_mem _ hm))
    obtain ⟨bs1, g1, p1⟩ := field_roundtrip f v (bs2 ++ rest) hf
    have hlk : whole.lookup f.name = some v := by
      rw [← hk]; exact hl k v (List.mem_cons_self _ _)
    refine ⟨bs1 ++ bs2, ?_, ?_⟩
    · simp only [generateFields, hlk, g1, g2]
    · simp only [parseFields, List.append_assoc, p1, p2, hk]
end

/-- C6: for every valid definition and every mapping that conforms to its field
sequence, `serializeMessage` produces a buffer and `deserializeMessage` of that
buffer is the mapping itself. -/
theorem deserialize_serialize_roundtrip (d : MessageDefinition) (values : QVariantMap)
    (hvalid : d.m_valid = true) (hconf : d.conforms values = true) :
    ∃ buffer, d.serializeMessage values = some buffer ∧
      d.deserializeMessage buffer = some values := by
  simp only [MessageDefinition.conforms, Bool.and_eq_true, decide_eq_true_eq] at hconf
  obtain ⟨bs, h1, h2⟩ := fields_roundtrip d.m_fields values values [] hconf.1
    (fun k v hm => lookup_of_mem_nodup values k v hconf.2 hm)
  refine ⟨bs, ?_, ?_⟩
  · simp [MessageDefinition.serializeMessage, hvalid, h1]
  · rw [List.append_nil] at h2
    simp [MessageDefinition.deserializeMessage, hvalid, h2]

/-- C6, at the example definition. -/
theorem deserialize_serialize_roundtrip_witness :
    exampleDefinition.m_valid = true ∧ exampleDefinition.conforms exampleValues = true ∧
    exampleDefinition.serializeMessage exampleValues =
      some [7, 0, 0, 0, 2, 0, 0, 0, 104, 105, 0, 0, 0, 0, 0, 0, 12, 64, 0, 0, 0, 0, 254, 255] ∧
    ∃ buffer, exampleDefinition.serializeMessage exampleValues = some buffer ∧
      exampleDefinition.deserializeMessage buffer = some exampleValues :=
  ⟨rfl, by decide, by decide,
    deserialize_serialize_roundtrip exampleDefinition exampleValues rfl (by decide)⟩

end Rclqml
